import Mathlib

/-!
# IoT gateway: durable buffer and forwarder

A shallow embedding of `internal/buffer/buffer.go` and
`internal/forwarder/forwarder.go`.

* The SQLite table `messages` is a list of rows together with the
  `sqlite_sequence` counter that `AUTOINCREMENT` maintains.
* Every call into the database engine may report an error.  Which calls do so
  is given by a `Faults` oracle that each operation receives.
* Go's `int`, `int64` and `time.Duration` are 64-bit; they are integers here,
  wrapped with `wrapInt64` wherever the source does arithmetic that can leave
  the range.
* Pointers that the source compares with `nil` are `Option`s.
* The producer client is a state machine given as a parameter; a flush threads
  its state and a trace of the calls made.  The retry loop is run for at most
  `fuel` iterations, and `Outcome.running` is the result when that bound is
  reached before the loop returns.
-/

namespace Gateway

/-! ## Basic types -/

/-- One byte of a payload. -/
abbrev Byte := Fin 256

/-- A Go byte slice, as the sequence of its bytes. -/
abbrev Bytes := List Byte

/-- Errors returned by the buffer. -/
inductive Err where
  /-- The error `errors.New("buffer path is empty")`. -/
  | pathEmpty
  /-- The error `errors.New("store not initialized")`. -/
  | notInitialized
  /-- an error reported by the operating system (`os.MkdirAll`) -/
  | os
  /-- an error reported by `database/sql` or SQLite -/
  | engine
  /-- an error returned by the producer client -/
  | produce
deriving DecidableEq, Repr

/-- Largest value of a Go `int` / `int64`. -/
def maxInt64 : Int := 2 ^ 63 - 1

/-- Two's complement wrap-around of a 64-bit signed integer. -/
def wrapInt64 (x : Int) : Int := (x + 2 ^ 63) % 2 ^ 64 - 2 ^ 63

/-- Which calls into the operating system and the database engine report an
error.  The index of `exec` and `scan` is the position of the call inside the
loop that issues it (0 for a call outside a loop). -/
structure Faults where
  mkdir : Bool
  dbOpen : Bool
  prepare : Bool
  exec : Nat → Bool
  query : Bool
  scan : Nat → Bool
  beginTx : Bool
  commit : Bool

/-- The environment in which no call fails. -/
def Faults.none : Faults :=
  ⟨false, false, false, fun _ => false, false, fun _ => false, false, false⟩

/-! ## The table `messages` -/

/-- A row of the table created by `Init`:
`id INTEGER PRIMARY KEY AUTOINCREMENT, payload BLOB NOT NULL,
created_at INTEGER NOT NULL, sent INTEGER NOT NULL DEFAULT 0`. -/
structure Row where
  id : Int
  payload : Bytes
  created_at : Int
  sent : Int
deriving DecidableEq, Repr

/-- The database file: the rows of `messages` in insertion order and the
largest rowid ever handed out (the `sqlite_sequence` entry, 0 when absent). -/
structure DB where
  messages : List Row
  seq : Int
deriving DecidableEq, Repr

/-- The `PRIMARY KEY` constraint: no two rows share an id. -/
def DB.Valid (db : DB) : Prop := (db.messages.map Row.id).Nodup

instance (db : DB) : Decidable db.Valid := by
  unfold DB.Valid; infer_instance

/-- Largest rowid present in the table, if any. -/
def maxRowid : List Row → Option Int
  | [] => Option.none
  | r :: rs =>
    match maxRowid rs with
    | Option.none => some r.id
    | some m => some (max r.id m)

/-- The rowid SQLite picks for a new row of an `AUTOINCREMENT` table: one more
than the largest rowid in the table (1 for an empty table), and at least one
more than the recorded sequence value. -/
def DB.nextRowid (db : DB) : Int :=
  let v := match maxRowid db.messages with
    | Option.none => 1
    | some m => m + 1
  max v (db.seq + 1)

/-- The statement `INSERT INTO messages(payload, created_at, sent) VALUES (?, ?, 0)`.
The statement fails when the engine reports an error and, with
`SQLITE_FULL`, when the largest rowid has been used up. -/
def DB.insert (db : DB) (payload : Bytes) (now : Int) (env : Faults) :
    Except Err (Int × DB) :=
  if env.exec 0 then Except.error Err.engine
  else
    let id := db.nextRowid
    if id > maxInt64 then Except.error Err.engine
    else Except.ok (id, ⟨db.messages ++ [⟨id, payload, now, 0⟩], id⟩)

/-- The statement `UPDATE messages SET sent=1 WHERE id = ?`. -/
def DB.update (db : DB) (id : Int) : DB :=
  ⟨db.messages.map (fun r => if r.id = id then { r with sent := 1 } else r), db.seq⟩

/-- The rows with `sent=0`, `ORDER BY id`. -/
def DB.unsent (db : DB) : List Row :=
  (db.messages.filter (fun r => decide (r.sent = 0))).insertionSort (fun a b => a.id ≤ b.id)

/-- The clause `LIMIT n`: a negative `n` means no limit. -/
def sqlLimit (n : Int) (rows : List Row) : List Row :=
  if n < 0 then rows else rows.take n.toNat

/-- The query `SELECT id, payload, created_at, sent FROM messages WHERE sent=0
ORDER BY id LIMIT ?`. -/
def DB.selectUnsent (db : DB) (limit : Int) : List Row :=
  sqlLimit limit db.unsent

/-- The query `SELECT COUNT(1) FROM messages WHERE sent=0`. -/
def DB.countUnsent (db : DB) : Int :=
  ((db.messages.filter (fun r => decide (r.sent = 0))).length : Int)

/-! ## `buffer.Store` -/

/-- The Go struct `Message`; `CreatedAt` is kept as unix seconds. -/
structure Message where
  ID : Int
  Payload : Bytes
  CreatedAt : Int
  Sent : Bool
deriving DecidableEq, Repr

/-- The Go struct `Store`: a handle on the database, possibly nil. -/
structure Store where
  db : Option DB
deriving DecidableEq, Repr

/-- An open store on the database `db`. -/
def Store.of (db : DB) : Option Store := some ⟨some db⟩

/-- Go `Init`: opens or creates the database file at `path` and makes sure the
schema exists.  `dir` is `filepath.Dir(path)`, `disk` is the content of the
file when it already exists; `CREATE TABLE IF NOT EXISTS` leaves an existing
table alone. -/
def Init (path : String) (dir : String) (disk : Option DB) (env : Faults) :
    Except Err Store :=
  if path = "" then Except.error Err.pathEmpty
  else if (dir ≠ "." ∧ dir ≠ "") ∧ env.mkdir then Except.error Err.os
  else if env.dbOpen then Except.error Err.engine
  else if env.exec 0 then Except.error Err.engine
  else
    match disk with
    | Option.none => Except.ok ⟨some ⟨[], 0⟩⟩
    | some db => Except.ok ⟨some db⟩

/-- Go `Store.Enqueue`: stores a payload; returns the new id, and the store after
the call. `now` is `time.Now().Unix()`. -/
def Store.Enqueue (s : Option Store) (payload : Bytes) (now : Int) (env : Faults) :
    Except Err Int × Option Store :=
  match s with
  | Option.none => (Except.error Err.notInitialized, s)
  | some st =>
    match st.db with
    | Option.none => (Except.error Err.notInitialized, s)
    | some db =>
      if env.prepare then (Except.error Err.engine, s)
      else
        match db.insert payload now env with
        | Except.error e => (Except.error e, s)
        | Except.ok (id, db1) => (Except.ok id, some ⟨some db1⟩)

/-- The body of the `rows.Next()` loop of `FetchUnsent` for one row. -/
def scanRow (r : Row) : Message :=
  ⟨r.id, r.payload, r.created_at, decide (r.sent ≠ 0)⟩

/-- The `rows.Next()` loop of `FetchUnsent`: `k` is the index of the next row,
`out` the messages appended so far. -/
def scanRows (env : Faults) : Nat → List Row → List Message → Except Err (List Message)
  | _, [], out => Except.ok out
  | k, r :: rs, out =>
    if env.scan k then Except.error Err.engine
    else scanRows env (k + 1) rs (out ++ [scanRow r])

/-- Go `Store.FetchUnsent`: up to `limit` unsent messages ordered by id. -/
def Store.FetchUnsent (s : Option Store) (limit : Int) (env : Faults) :
    Except Err (List Message) :=
  match s with
  | Option.none => Except.error Err.notInitialized
  | some st =>
    match st.db with
    | Option.none => Except.error Err.notInitialized
    | some db =>
      let limit := if limit ≤ 0 then 50 else limit
      if env.query then Except.error Err.engine
      else scanRows env 0 (db.selectUnsent limit) []

/-- Go `Store.CountUnsent`: the number of unsent messages. -/
def Store.CountUnsent (s : Option Store) (env : Faults) : Except Err Int :=
  match s with
  | Option.none => Except.error Err.notInitialized
  | some st =>
    match st.db with
    | Option.none => Except.error Err.notInitialized
    | some db =>
      if env.scan 0 then Except.error Err.engine
      else Except.ok db.countUnsent

/-- A transaction: the database as it was at `Begin` and the working copy the
statements of the transaction act on. -/
structure Tx where
  orig : DB
  work : DB

/-- The call `db.Begin()`. -/
def DB.Begin (db : DB) (env : Faults) : Except Err Tx :=
  if env.beginTx then Except.error Err.engine else Except.ok ⟨db, db⟩

/-- The call `tx.Rollback()`: the database is the one before the transaction. -/
def Tx.Rollback (tx : Tx) : DB := tx.orig

/-- The call `tx.Commit()`: installs the working copy; when the commit fails the
transaction is rolled back. -/
def Tx.Commit (tx : Tx) (env : Faults) : Option Err × DB :=
  if env.commit then (some Err.engine, tx.orig) else (Option.none, tx.work)

/-- The `for _, id := range ids` loop of `MarkSent`, on the working copy `w`;
`k` is the index of the next id. -/
def execAll (env : Faults) : Nat → List Int → DB → Except Err DB
  | _, [], w => Except.ok w
  | k, id :: ids, w =>
    if env.exec k then Except.error Err.engine
    else execAll env (k + 1) ids (w.update id)

/-- Go `Store.MarkSent`: marks the listed ids as sent inside one transaction.
Returns the error (or nil) and the store after the call. -/
def Store.MarkSent (s : Option Store) (ids : List Int) (env : Faults) :
    Option Err × Option Store :=
  match s with
  | Option.none => (some Err.notInitialized, s)
  | some st =>
    match st.db with
    | Option.none => (some Err.notInitialized, s)
    | some db =>
      if ids.length = 0 then (Option.none, s)
      else
        match db.Begin env with
        | Except.error e => (some e, s)
        | Except.ok tx =>
          if env.prepare then (some Err.engine, some ⟨some tx.Rollback⟩)
          else
            match execAll env 0 ids tx.work with
            | Except.error e => (some e, some ⟨some tx.Rollback⟩)
            | Except.ok w =>
              let r := Tx.Commit ⟨tx.orig, w⟩ env
              (r.1, some ⟨some r.2⟩)


instance rowLe_total : IsTotal Row (fun a b => a.id ≤ b.id) :=
  ⟨fun a b => le_total a.id b.id⟩

instance rowLe_trans : IsTrans Row (fun a b => a.id ≤ b.id) :=
  ⟨fun _ _ _ h1 h2 => le_trans h1 h2⟩

/-- The effective batch size of `FetchUnsent`: `limit` when it is positive,
50 otherwise. -/
def fetchLimit (limit : Int) : Nat := if limit > 0 then limit.toNat else 50

/-- The table after `UPDATE messages SET sent=1 WHERE id = ?` has run for each
of `ids`. -/
def DB.markAll (db : DB) (ids : List Int) : DB :=
  ⟨db.messages.map (fun r => if r.id ∈ ids then { r with sent := 1 } else r), db.seq⟩

/-- The row with id `i` exists and is marked sent. -/
def DB.Acked (db : DB) (i : Int) : Prop :=
  (∃ r ∈ db.messages, r.id = i) ∧ ∀ r ∈ db.messages, r.id = i → r.sent ≠ 0

/-! ## Sequences of store operations -/

/-- A call of one of the four operations of the store, with its arguments and
the environment it runs in. -/
inductive Op where
  | enqueue (payload : Bytes) (now : Int) (env : Faults)
  | fetchUnsent (limit : Int) (env : Faults)
  | countUnsent (env : Faults)
  | markSent (ids : List Int) (env : Faults)

/-- The store after an operation.  `FetchUnsent` and `CountUnsent` only read. -/
def Op.apply (s : Option Store) : Op → Option Store
  | Op.enqueue payload now env => (Store.Enqueue s payload now env).2
  | Op.fetchUnsent _ _ => s
  | Op.countUnsent _ => s
  | Op.markSent ids env => (Store.MarkSent s ids env).2

/-- The store after a sequence of operations. -/
def runOps (s : Option Store) (ops : List Op) : Option Store :=
  ops.foldl Op.apply s

/-- The operation is a `MarkSent` that succeeds on `s` and lists `id`. -/
def Op.acks (s : Option Store) (id : Int) : Op → Prop
  | Op.markSent ids env => (Store.MarkSent s ids env).1 = Option.none ∧ id ∈ ids
  | _ => False

/-- The stores reachable from a freshly created one: `Init` on a path with no
database file, then any sequence of operations, reopening included. -/
inductive Reachable : Option Store → Prop where
  | fresh (path dir : String) (env : Faults) (st : Store) :
      Init path dir Option.none env = Except.ok st → Reachable (some st)
  | step (s : Option Store) (op : Op) : Reachable s → Reachable (op.apply s)
  | reopen (db : DB) (path dir : String) (env : Faults) (st : Store) :
      Reachable (Store.of db) → Init path dir (some db) env = Except.ok st →
      Reachable (some st)

/-! ## `forwarder.Forwarder` -/

/-- The constants `time.Millisecond` and `time.Second`, in nanoseconds. -/
def millisecond : Int := 1000000

def second : Int := 1000 * millisecond

/-- The interface `kafka.ProducerClient` over a client with states `σ`:
`Produce(payload, timeout)` returns an error or nil, and the next state. -/
structure ProducerClient (σ : Type) where
  Produce : σ → Bytes → Int → Option Err × σ

/-- What a flush does to the outside: sleeps, calls of `Produce` (with whether
it returned nil) and calls into the store (with the error returned). -/
inductive Event where
  | sleep (d : Int)
  | produce (payload : Bytes) (timeout : Int) (ok : Bool)
  | fetchUnsent (limit : Int)
  | markSent (ids : List Int) (err : Option Err)
deriving DecidableEq, Repr

/-- The state of the producer client and the events so far, oldest first. -/
structure World (σ : Type) where
  sink : σ
  trace : List Event

/-- Appends an event to the trace. -/
def World.log {σ : Type} (w : World σ) (e : Event) : World σ :=
  ⟨w.sink, w.trace ++ [e]⟩

/-- How a call ends: it returns, it is still running when the bound on the
number of loop iterations is reached, or it panics on a nil receiver. -/
inductive Outcome (α : Type) where
  | done (a : α)
  | running
  | panic
deriving DecidableEq, Repr

/-- The Go struct `Forwarder`.  `ctxDone` says whether `ctx` is cancelled and
`cancel` whether the cancel function is non-nil. -/
structure Forwarder (σ : Type) where
  store : Option Store
  producer : Option (ProducerClient σ)
  interval : Int
  ctxDone : Bool
  cancel : Bool
  retries : Int
  timeout : Int

/-- Go `New`: a forwarder with defaults for a negative retry count and a
non-positive timeout. -/
def New {σ : Type} (store : Option Store) (producer : Option (ProducerClient σ))
    (interval : Int) (retries : Int) (timeout : Int) : Forwarder σ :=
  let retries := if retries < 0 then 3 else retries
  let timeout := if timeout ≤ 0 then 5 * second else timeout
  ⟨store, producer, interval, false, true, retries, timeout⟩

/-- The conversion `time.Duration(math.Pow(2, float64(e)))`: the fraction is
dropped for a negative `e`, the value is exact up to `2^62`; beyond, the float
does not fit an `int64` and Go leaves the result of the conversion to the
implementation, here `ovf e`. -/
def pow2Duration (ovf : Int → Int) (e : Int) : Int :=
  if e < 0 then 0 else if e < 63 then 2 ^ e.toNat else ovf e

/-- The back-off before attempt `attempt > 0`:
`time.Duration(math.Pow(2, float64(attempt-1))) * 500 * time.Millisecond`. -/
def backoff (ovf : Int → Int) (attempt : Int) : Int :=
  wrapInt64 (wrapInt64 (pow2Duration ovf (attempt - 1) * 500) * millisecond)

/-- The head of the loop body of `sendWithRetry`: `time.Sleep(backoff)` for
an attempt after the first. -/
def sleepBefore {σ : Type} (ovf : Int → Int) (attempt : Int) (w : World σ) : World σ :=
  if attempt > 0 then w.log (Event.sleep (backoff ovf attempt)) else w

/-- The loop of `sendWithRetry` from the iteration with counter `attempt`,
for at most `fuel` iterations. -/
def sendLoop {σ : Type} (p : ProducerClient σ) (retries timeout : Int) (ovf : Int → Int)
    (payload : Bytes) : Nat → Int → World σ → Outcome Bool × World σ
  | 0, _, w => (Outcome.running, w)
  | fuel + 1, attempt, w =>
    if attempt ≤ retries then
      let w1 := sleepBefore ovf attempt w
      let r := p.Produce w1.sink payload timeout
      let w2 : World σ := ⟨r.2, w1.trace ++ [Event.produce payload timeout r.1.isNone]⟩
      match r.1 with
      | Option.none => (Outcome.done true, w2)
      | some _ => sendLoop p retries timeout ovf payload fuel (wrapInt64 (attempt + 1)) w2
    else (Outcome.done false, w)

/-- Go `Forwarder.sendWithRetry`: up to `retries + 1` calls of `Produce`, with a
back-off before each retry. -/
def Forwarder.sendWithRetry {σ : Type} (f : Forwarder σ) (ovf : Int → Int) (fuel : Nat)
    (payload : Bytes) (w : World σ) : Outcome Bool × World σ :=
  match f.producer with
  | Option.none => (Outcome.panic, w)
  | some p => sendLoop p f.retries f.timeout ovf payload fuel 0 w

/-- The `for _, m := range msgs` loop of `flushOnce`; `sentIDs` are the ids
delivered so far. -/
def Forwarder.sendBatch {σ : Type} (f : Forwarder σ) (ovf : Int → Int) (fuel : Nat) :
    List Message → List Int → World σ → Outcome (List Int) × World σ
  | [], sentIDs, w => (Outcome.done sentIDs, w)
  | m :: ms, sentIDs, w =>
    match f.sendWithRetry ovf fuel m.Payload w with
    | (Outcome.done true, w1) => Forwarder.sendBatch f ovf fuel ms (sentIDs ++ [m.ID]) w1
    | (Outcome.done false, w1) => (Outcome.done sentIDs, w1)
    | (Outcome.running, w1) => (Outcome.running, w1)
    | (Outcome.panic, w1) => (Outcome.panic, w1)

/-- Go `Forwarder.flushOnce`: fetches up to 100 unsent messages, sends them in
order until one fails after its retries, and marks the delivered ones sent.
Returns the forwarder with the store as the flush leaves it. -/
def Forwarder.flushOnce {σ : Type} (f : Forwarder σ) (env : Faults) (ovf : Int → Int)
    (fuel : Nat) (w : World σ) : Outcome Unit × Forwarder σ × World σ :=
  if f.store.isNone ∨ f.producer.isNone then (Outcome.done (), f, w)
  else
    let w0 := w.log (Event.fetchUnsent 100)
    match Store.FetchUnsent f.store 100 env with
    | Except.error _ => (Outcome.done (), f, w0)
    | Except.ok msgs =>
      if msgs.length = 0 then (Outcome.done (), f, w0)
      else
        match f.sendBatch ovf fuel msgs [] w0 with
        | (Outcome.done sentIDs, w1) =>
          if sentIDs.length > 0 then
            let r := Store.MarkSent f.store sentIDs env
            (Outcome.done (), { f with store := r.2 }, w1.log (Event.markSent sentIDs r.1))
          else (Outcome.done (), f, w1)
        | (Outcome.running, w1) => (Outcome.running, f, w1)
        | (Outcome.panic, w1) => (Outcome.panic, f, w1)

/-- Go `Forwarder.FlushOnce` exposes `flushOnce`. -/
def Forwarder.FlushOnce {σ : Type} (f : Forwarder σ) (env : Faults) (ovf : Int → Int)
    (fuel : Nat) (w : World σ) : Outcome Unit × Forwarder σ × World σ :=
  f.flushOnce env ovf fuel w

/-- Go `Forwarder.Stop`: cancels the context when a cancel function is set. -/
def Forwarder.Stop {σ : Type} (f : Forwarder σ) : Forwarder σ :=
  if f.cancel then { f with ctxDone := true } else f

/-! ## Reading a trace, and test doubles for the producer -/

/-- The event is a call of `Produce`. -/
def Event.isProduce : Event → Bool
  | Event.produce _ _ _ => true
  | _ => false

/-- The event is a call of `Produce` that returned nil. -/
def Event.isProduceOk : Event → Bool
  | Event.produce _ _ ok => ok
  | _ => false

/-- A producer in the manner of `mockProducer`: its state counts the calls and
the first `k` calls fail. -/
def failFirst (k : Nat) : ProducerClient Nat :=
  ⟨fun calls _ _ => (if calls < k then some Err.produce else Option.none, calls + 1)⟩

/-- A producer that counts the calls and fails exactly for the payload `b`. -/
def failOn (b : Bytes) : ProducerClient Nat :=
  ⟨fun calls payload _ => (if payload = b then some Err.produce else Option.none, calls + 1)⟩

/-- A producer that counts the calls; its first `n` calls succeed and every
later one fails. -/
def failAfter (n : Nat) : ProducerClient Nat :=
  ⟨fun calls _ _ => (if calls < n then Option.none else some Err.produce, calls + 1)⟩

/-- The event is a sleep or a call of `Produce`, the two things `sendWithRetry`
does. -/
def Event.isDelivery : Event → Bool
  | Event.sleep _ => true
  | Event.produce _ _ _ => true
  | _ => false

/-- The events of the retries numbered from `k` on, in the words of the
specification: before retry `k` a sleep of `delay k`, then the call of
`Produce`; `oks` says for each retry whether the call returned nil. -/
def retryEvents (delay : Int → Int) (payload : Bytes) (timeout : Int) :
    Int → List Bool → List Event
  | _, [] => []
  | k, ok :: oks =>
    Event.sleep (delay k) :: Event.produce payload timeout ok ::
      retryEvents delay payload timeout (k + 1) oks

/-! ## `Forwarder.loop` as a step relation -/

/-- The control state of `loop`: whether `f.ctx` is cancelled, whether a cancel
function is set, whether a tick waits in `ticker.C`, whether the loop is inside
`flushOnce`, and whether the loop has returned. -/
structure LoopState where
  ctxDone : Bool
  cancel : Bool
  tick : Bool
  flushing : Bool
  returned : Bool
deriving DecidableEq, Repr

/-- The steps of an execution of `loop` together with its environment: the
ticker fires, `Stop()` is called, the `select` takes `<-f.ctx.Done()`, the
`select` takes `<-ticker.C` and `flushOnce` begins, `flushOnce` returns. -/
inductive LoopLabel where
  | tick
  | stop
  | selectDone
  | selectTick
  | flushEnd
deriving DecidableEq, Repr

/-- The state in which `loop` reaches its `select` for the first time.
`time.NewTicker` panics for an interval that is not positive. -/
def Forwarder.loop {σ : Type} (f : Forwarder σ) : Option LoopState :=
  if f.interval ≤ 0 then Option.none
  else some ⟨f.ctxDone, f.cancel, false, false, false⟩

/-- When a step can be taken.  The ticker fires until `loop` returns (the
deferred `ticker.Stop()`).  A `select` case can be taken when its channel is
ready and the loop is at the `select`; when both are ready either may be
taken. -/
def LoopState.enabled (s : LoopState) : LoopLabel → Bool
  | LoopLabel.tick => !s.returned
  | LoopLabel.stop => true
  | LoopLabel.selectDone => !s.returned && !s.flushing && s.ctxDone
  | LoopLabel.selectTick => !s.returned && !s.flushing && s.tick
  | LoopLabel.flushEnd => !s.returned && s.flushing

/-- The state after a step.  `ticker.C` holds at most one tick. -/
def LoopState.next (s : LoopState) : LoopLabel → LoopState
  | LoopLabel.tick => { s with tick := true }
  | LoopLabel.stop => if s.cancel then { s with ctxDone := true } else s
  | LoopLabel.selectDone => { s with returned := true }
  | LoopLabel.selectTick => { s with tick := false, flushing := true }
  | LoopLabel.flushEnd => { s with flushing := false }

/-- Runs a sequence of steps; `none` when one of them cannot be taken. -/
def LoopState.run (s : LoopState) : List LoopLabel → Option LoopState
  | [] => some s
  | l :: ls => if s.enabled l then (s.next l).run ls else Option.none

/-! ## Facts about the table -/

section TableLemmas

theorem mem_unsent {db : DB} {r : Row} :
    r ∈ db.unsent ↔ r ∈ db.messages ∧ r.sent = 0 := by
  unfold DB.unsent
  rw [List.mem_insertionSort, List.mem_filter]
  simp

theorem unsent_sorted_le (db : DB) :
    db.unsent.Sorted (fun a b => a.id ≤ b.id) :=
  List.sorted_insertionSort _ _

theorem unsent_ids_nodup {db : DB} (hv : db.Valid) :
    (db.unsent.map Row.id).Nodup := by
  have hp : db.unsent.Perm (db.messages.filter (fun r => decide (r.sent = 0))) :=
    List.perm_insertionSort _ _
  have hsub : ((db.messages.filter (fun r => decide (r.sent = 0))).map Row.id).Sublist
      (db.messages.map Row.id) := (List.filter_sublist _).map _
  exact ((hp.map Row.id).nodup_iff).mpr (hv.sublist hsub)

theorem unsent_sorted_lt {db : DB} (hv : db.Valid) :
    db.unsent.Pairwise (fun a b => a.id < b.id) := by
  have h1 : db.unsent.Pairwise (fun a b => a.id ≤ b.id) := unsent_sorted_le db
  have h2 : db.unsent.Pairwise (fun a b => a.id ≠ b.id) :=
    (List.pairwise_map.mp (unsent_ids_nodup hv))
  exact (h1.and h2).imp (fun h => lt_of_le_of_ne h.1 h.2)

theorem scanRows_ok (env : Faults) (hs : ∀ k, env.scan k = false) :
    ∀ (rows : List Row) (k : Nat) (out : List Message),
      scanRows env k rows out = Except.ok (out ++ rows.map scanRow)
  | [], k, out => by simp [scanRows]
  | r :: rs, k, out => by
    simp [scanRows, hs k, scanRows_ok env hs rs (k + 1)]

theorem FetchUnsent_ok (db : DB) (limit : Int) (env : Faults)
    (hq : env.query = false) (hs : ∀ k, env.scan k = false) :
    Store.FetchUnsent (Store.of db) limit env
      = Except.ok ((db.unsent.take (fetchLimit limit)).map scanRow) := by
  unfold Store.FetchUnsent Store.of fetchLimit
  simp only [hq, Bool.false_eq_true, if_false]
  rw [scanRows_ok env hs]
  unfold DB.selectUnsent sqlLimit
  by_cases h : limit ≤ 0
  · have h2 : ¬ limit > 0 := not_lt.mpr h
    simp [h, h2]
  · have h2 : limit > 0 := not_le.mp h
    have h3 : ¬ limit < 0 := by omega
    simp [h, h2, h3]

theorem scanRow_sent_eq_false {r : Row} (h : r.sent = 0) : (scanRow r).Sent = false := by
  simp [scanRow, h]

theorem take_closed_of_sorted {db : DB} (hv : db.Valid) (n : Nat) {r r1 : Row}
    (hr : r ∈ db.unsent) (hr1 : r1 ∈ db.unsent.take n) (hlt : r.id < r1.id) :
    r ∈ db.unsent.take n := by
  have hpw := unsent_sorted_lt hv
  rw [← List.take_append_drop n db.unsent] at hr hpw
  rcases List.mem_append.mp hr with h | h
  · exact h
  · have := (List.pairwise_append.mp hpw).2.2 r1 hr1 r h
    omega

theorem scanRows_inv (env : Faults) :
    ∀ (rows : List Row) (k : Nat) (out res : List Message),
      scanRows env k rows out = Except.ok res → res = out ++ rows.map scanRow
  | [], k, out, res, h => by
    simp only [scanRows, Except.ok.injEq] at h
    simp [h]
  | r :: rs, k, out, res, h => by
    simp only [scanRows] at h
    split at h
    · cases h
    · have := scanRows_inv env rs (k + 1) _ res h
      simpa using this

theorem FetchUnsent_inv {db : DB} {limit : Int} {env : Faults} {msgs : List Message}
    (h : Store.FetchUnsent (Store.of db) limit env = Except.ok msgs) :
    msgs = (db.unsent.take (fetchLimit limit)).map scanRow := by
  unfold Store.FetchUnsent Store.of at h
  simp only at h
  split at h
  · cases h
  · have h1 := scanRows_inv env _ 0 [] msgs h
    rw [h1]
    unfold DB.selectUnsent sqlLimit fetchLimit
    by_cases hl : limit ≤ 0
    · have h2 : ¬ limit > 0 := not_lt.mpr hl
      simp [hl, h2]
    · have h2 : limit > 0 := not_le.mp hl
      have h3 : ¬ limit < 0 := by omega
      simp [hl, h2, h3]

theorem lt_of_maxRowid : ∀ (rows : List Row) (r : Row), r ∈ rows →
    ∃ m, maxRowid rows = some m ∧ r.id ≤ m
  | [], r, h => by cases h
  | x :: xs, r, h => by
    rcases List.mem_cons.mp h with rfl | h
    · cases hm : maxRowid xs with
      | none => exact ⟨r.id, by simp [maxRowid, hm], le_refl _⟩
      | some m => exact ⟨max r.id m, by simp [maxRowid, hm], le_max_left _ _⟩
    · obtain ⟨m, hm, hle⟩ := lt_of_maxRowid xs r h
      exact ⟨max x.id m, by simp [maxRowid, hm], le_trans hle (le_max_right _ _)⟩

theorem lt_nextRowid {db : DB} {r : Row} (h : r ∈ db.messages) : r.id < db.nextRowid := by
  obtain ⟨m, hm, hle⟩ := lt_of_maxRowid db.messages r h
  unfold DB.nextRowid
  simp only [hm]
  have : m + 1 ≤ max (m + 1) (db.seq + 1) := le_max_left _ _
  omega

theorem seq_lt_nextRowid (db : DB) : db.seq < db.nextRowid := by
  unfold DB.nextRowid
  exact lt_of_lt_of_le (by omega) (le_max_right _ _)

/-- The table after a successful insert. -/
theorem Enqueue_inv {db : DB} {payload : Bytes} {now : Int} {env : Faults} {id : Int}
    {s1 : Option Store}
    (h : Store.Enqueue (Store.of db) payload now env = (Except.ok id, s1)) :
    id = db.nextRowid ∧ id ≤ maxInt64 ∧
      s1 = Store.of ⟨db.messages ++ [⟨id, payload, now, 0⟩], id⟩ := by
  unfold Store.Enqueue Store.of DB.insert at h
  simp only at h
  split at h
  · cases h
  · split at h
    · rename_i e heq
      split at heq
      · cases h
      · split at heq <;> cases heq
        cases h
    · rename_i id1 db1 heq
      split at heq
      · cases heq
      · split at heq
        · cases heq
        · rename_i hle
          simp only [Except.ok.injEq, Prod.mk.injEq] at heq
          simp only [Prod.mk.injEq, Except.ok.injEq] at h
          obtain ⟨h1, h2⟩ := heq
          obtain ⟨h3, h4⟩ := h
          subst h1 h3
          refine ⟨rfl, not_lt.mp hle, ?_⟩
          rw [← h4, ← h2]; rfl

/-- Whatever happens, `Enqueue` leaves the table alone or appends one row with
a fresh id. -/
theorem Enqueue_store (db : DB) (payload : Bytes) (now : Int) (env : Faults) :
    (Store.Enqueue (Store.of db) payload now env).2 = Store.of db ∨
    (Store.Enqueue (Store.of db) payload now env).2
      = Store.of ⟨db.messages ++ [⟨db.nextRowid, payload, now, 0⟩], db.nextRowid⟩ := by
  cases hres : Store.Enqueue (Store.of db) payload now env with
  | mk r s1 =>
    cases r with
    | ok id =>
      obtain ⟨h1, -, h3⟩ := Enqueue_inv hres
      right; rw [h3, h1]
    | error e =>
      left
      unfold Store.Enqueue Store.of at hres
      simp only at hres
      split at hres
      · simp only [Prod.mk.injEq] at hres; exact hres.2.symm
      · split at hres
        · simp only [Prod.mk.injEq] at hres; exact hres.2.symm
        · simp only [Prod.mk.injEq] at hres; cases hres.1

theorem update_markAll (db : DB) (id : Int) (ids : List Int) :
    (db.update id).markAll ids = db.markAll (id :: ids) := by
  unfold DB.update DB.markAll
  simp only [List.map_map, DB.mk.injEq, and_true]
  apply List.map_congr_left
  intro r _
  by_cases h1 : r.id = id
  · by_cases h2 : id ∈ ids <;> simp [h1, h2]
  · by_cases h2 : r.id ∈ ids <;> simp [h1, h2]

theorem markAll_nil (db : DB) : db.markAll [] = db := by
  unfold DB.markAll
  simp

theorem execAll_inv (env : Faults) :
    ∀ (ids : List Int) (k : Nat) (w w1 : DB),
      execAll env k ids w = Except.ok w1 → w1 = w.markAll ids
  | [], k, w, w1, h => by
    simp only [execAll, Except.ok.injEq] at h
    rw [markAll_nil, h]
  | id :: ids, k, w, w1, h => by
    simp only [execAll] at h
    split at h
    · cases h
    · rw [execAll_inv env ids (k + 1) _ w1 h, update_markAll]

/-- Either `MarkSent` leaves the store as it is or it has marked every listed id;
it has done the latter when it returns nil. -/
theorem MarkSent_cases (db : DB) (ids : List Int) (env : Faults) :
    ((Store.MarkSent (Store.of db) ids env).1 ≠ Option.none ∧
      (Store.MarkSent (Store.of db) ids env).2 = Store.of db) ∨
    (Store.MarkSent (Store.of db) ids env = (Option.none, Store.of (db.markAll ids))) := by
  unfold Store.MarkSent Store.of DB.Begin Tx.Rollback Tx.Commit
  simp only
  by_cases h0 : ids.length = 0
  · right
    have : ids = [] := List.length_eq_zero.mp h0
    subst this
    simp [markAll_nil]
  · simp only [h0, if_false]
    by_cases hb : env.beginTx = true
    · left; simp [hb]
    · simp only [hb]
      by_cases hp : env.prepare = true
      · left; simp [hp]
      · simp only [hp]
        cases he : execAll env 0 ids db with
        | error e => left; simp [he]
        | ok w =>
          have hw := execAll_inv env ids 0 db w he
          by_cases hc : env.commit = true
          · left; simp [he, hc]
          · right; simp [he, hc, hw]

theorem markAll_ids (db : DB) (ids : List Int) :
    (db.markAll ids).messages.map Row.id = db.messages.map Row.id := by
  unfold DB.markAll
  simp only [List.map_map]
  apply List.map_congr_left
  intro r _
  by_cases h : r.id ∈ ids <;> simp [h]

theorem mem_markAll {db : DB} {ids : List Int} {r : Row} :
    r ∈ (db.markAll ids).messages ↔
      ∃ r0 ∈ db.messages, r = if r0.id ∈ ids then { r0 with sent := 1 } else r0 := by
  unfold DB.markAll
  simp only [List.mem_map]
  constructor
  · rintro ⟨r0, h0, rfl⟩; exact ⟨r0, h0, rfl⟩
  · rintro ⟨r0, h0, rfl⟩; exact ⟨r0, h0, rfl⟩

theorem mem_unsent_markAll {db : DB} {ids : List Int} {r : Row} :
    r ∈ (db.markAll ids).unsent ↔ r ∈ db.unsent ∧ r.id ∉ ids := by
  rw [mem_unsent, mem_unsent, mem_markAll]
  constructor
  · rintro ⟨⟨r0, h0, rfl⟩, hs⟩
    by_cases h : r0.id ∈ ids
    · simp [h] at hs
    · simp only [h, if_false] at hs ⊢
      exact ⟨⟨h0, hs⟩, not_false⟩
  · rintro ⟨⟨h0, hs⟩, hn⟩
    exact ⟨⟨r, h0, by simp [hn]⟩, hs⟩

theorem Acked_markAll {db : DB} {i : Int} (h : db.Acked i) (ids : List Int) :
    (db.markAll ids).Acked i := by
  obtain ⟨⟨r, hr, hi⟩, hall⟩ := h
  constructor
  · have : i ∈ (db.markAll ids).messages.map Row.id := by
      rw [markAll_ids]; exact List.mem_map.mpr ⟨r, hr, hi⟩
    obtain ⟨r1, h1, h2⟩ := List.mem_map.mp this
    exact ⟨r1, h1, h2⟩
  · intro r1 h1 hi1
    obtain ⟨r0, h0, rfl⟩ := mem_markAll.mp h1
    by_cases hm : r0.id ∈ ids
    · simp [hm]
    · simp only [hm, if_false] at hi1 ⊢
      exact hall r0 h0 hi1

theorem Acked_append {db : DB} {i : Int} (h : db.Acked i) (payload : Bytes) (now : Int) :
    DB.Acked ⟨db.messages ++ [⟨db.nextRowid, payload, now, 0⟩], db.nextRowid⟩ i := by
  obtain ⟨⟨r, hr, hi⟩, hall⟩ := h
  constructor
  · exact ⟨r, List.mem_append_left _ hr, hi⟩
  · intro r1 h1 hi1
    rcases List.mem_append.mp h1 with h1 | h1
    · exact hall r1 h1 hi1
    · have hlt := lt_nextRowid hr
      simp only [List.mem_singleton] at h1
      subst h1
      simp only at hi1
      omega

theorem Acked_apply {db : DB} {i : Int} (h : db.Acked i) (op : Op) :
    ∃ db1, op.apply (Store.of db) = Store.of db1 ∧ db1.Acked i := by
  cases op with
  | enqueue payload now env =>
    rcases Enqueue_store db payload now env with h1 | h1
    · exact ⟨db, h1, h⟩
    · exact ⟨_, h1, Acked_append h payload now⟩
  | fetchUnsent limit env => exact ⟨db, rfl, h⟩
  | countUnsent env => exact ⟨db, rfl, h⟩
  | markSent ids env =>
    rcases MarkSent_cases db ids env with h1 | h1
    · exact ⟨db, h1.2, h⟩
    · exact ⟨_, by simp [Op.apply, h1], Acked_markAll h ids⟩

theorem Acked_runOps : ∀ (ops : List Op) (db : DB) (i : Int), db.Acked i →
    ∃ db1, runOps (Store.of db) ops = Store.of db1 ∧ db1.Acked i
  | [], db, i, h => ⟨db, rfl, h⟩
  | op :: ops, db, i, h => by
    obtain ⟨db1, h1, h2⟩ := Acked_apply h op
    obtain ⟨db2, h3, h4⟩ := Acked_runOps ops db1 i h2
    refine ⟨db2, ?_, h4⟩
    simp only [runOps, List.foldl_cons] at h3 ⊢
    rw [h1]; exact h3

theorem Store.of_inj {a b : DB} (h : Store.of a = Store.of b) : a = b := by
  unfold Store.of at h
  simpa using h

theorem Init_fresh {path dir : String} {env : Faults} {st : Store}
    (h : Init path dir Option.none env = Except.ok st) : some st = Store.of ⟨[], 0⟩ := by
  unfold Init at h
  split at h
  · cases h
  · split at h
    · cases h
    · split at h
      · cases h
      · split at h
        · cases h
        · simp only [Except.ok.injEq] at h
          rw [← h]; rfl

theorem Init_reopen {path dir : String} {env : Faults} {st : Store} {db : DB}
    (h : Init path dir (some db) env = Except.ok st) : some st = Store.of db := by
  unfold Init at h
  split at h
  · cases h
  · split at h
    · cases h
    · split at h
      · cases h
      · split at h
        · cases h
        · simp only [Except.ok.injEq] at h
          rw [← h]; rfl

theorem Valid_append {db : DB} (hv : db.Valid) (payload : Bytes) (now : Int) :
    DB.Valid ⟨db.messages ++ [⟨db.nextRowid, payload, now, 0⟩], db.nextRowid⟩ := by
  unfold DB.Valid at *
  simp only [List.map_append, List.map_cons, List.map_nil]
  refine List.Nodup.append hv (List.nodup_singleton _) ?_
  intro i h1 h2
  obtain ⟨r, hr, rfl⟩ := List.mem_map.mp h1
  have := lt_nextRowid hr
  simp only [List.mem_singleton] at h2
  omega

theorem Valid_markAll {db : DB} (hv : db.Valid) (ids : List Int) : (db.markAll ids).Valid := by
  unfold DB.Valid at *
  rw [markAll_ids]; exact hv

/-- Every reachable store is open, its ids are distinct and its sequence value
is not negative. -/
theorem Reachable_inv {s : Option Store} (h : Reachable s) :
    ∃ db, s = Store.of db ∧ db.Valid ∧ 0 ≤ db.seq := by
  induction h with
  | fresh path dir env st hi =>
    exact ⟨⟨[], 0⟩, Init_fresh hi, by decide, le_refl _⟩
  | step s op _ ih =>
    obtain ⟨db, rfl, hv, hseq⟩ := ih
    cases op with
    | enqueue payload now env =>
      rcases Enqueue_store db payload now env with h1 | h1
      · exact ⟨db, h1, hv, hseq⟩
      · exact ⟨_, h1, Valid_append hv payload now, le_of_lt (lt_of_le_of_lt hseq (seq_lt_nextRowid db))⟩
    | fetchUnsent limit env => exact ⟨db, rfl, hv, hseq⟩
    | countUnsent env => exact ⟨db, rfl, hv, hseq⟩
    | markSent ids env =>
      rcases MarkSent_cases db ids env with h1 | h1
      · exact ⟨db, h1.2, hv, hseq⟩
      · exact ⟨_, by simp [Op.apply, h1], Valid_markAll hv ids, hseq⟩
  | reopen db path dir env st _ hi ih =>
    obtain ⟨db1, h1, hv, hseq⟩ := ih
    have := Store.of_inj h1
    subst this
    exact ⟨db, Init_reopen hi, hv, hseq⟩

theorem MarkSent_uninitialized (s : Option Store) (ids : List Int) (env : Faults)
    (h : ∀ db, s ≠ Store.of db) : Store.MarkSent s ids env = (some Err.notInitialized, s) := by
  unfold Store.MarkSent
  cases s with
  | none => rfl
  | some st =>
    cases st with
    | mk d =>
      cases d with
      | none => rfl
      | some db => exact absurd rfl (h db)

theorem execAll_fails (env : Faults) :
    ∀ (ids : List Int) (k j : Nat) (w : DB), j < ids.length → env.exec (k + j) = true →
      ∃ e, execAll env k ids w = Except.error e
  | [], k, j, w, hj, _ => by simp at hj
  | id :: ids, k, j, w, hj, he => by
    simp only [execAll]
    by_cases hk : env.exec k = true
    · exact ⟨Err.engine, by simp [hk]⟩
    · simp only [hk]
      cases j with
      | zero => exact absurd he hk
      | succ j =>
        have hj1 : j < ids.length := by simpa using hj
        have he1 : env.exec (k + 1 + j) = true := by
          have : k + 1 + j = k + (j + 1) := by omega
          rw [this]; exact he
        exact execAll_fails env ids (k + 1) j _ hj1 he1

end TableLemmas

/-! ## Facts about the forwarder -/

section ForwarderLemmas

variable {σ : Type}

theorem wrapInt64_of_range {x : Int} (h1 : -(2 ^ 63) ≤ x) (h2 : x ≤ maxInt64) :
    wrapInt64 x = x := by
  unfold wrapInt64
  unfold maxInt64 at h2
  omega

theorem wrapInt64_range (x : Int) : -(2 ^ 63) ≤ wrapInt64 x ∧ wrapInt64 x ≤ maxInt64 := by
  unfold wrapInt64 maxInt64
  omega

/-- One iteration of the loop of `sendWithRetry` whose call of `Produce`
returns nil. -/
theorem sendLoop_succ_ok (p : ProducerClient σ) (retries timeout : Int) (ovf : Int → Int)
    (payload : Bytes) (fuel : Nat) (attempt : Int) (w : World σ) (ha : attempt ≤ retries)
    (hok : (p.Produce (sleepBefore ovf attempt w).sink
      payload timeout).1 = Option.none) :
    sendLoop p retries timeout ovf payload (fuel + 1) attempt w =
      (Outcome.done true,
        ⟨(p.Produce (sleepBefore ovf attempt w).sink
            payload timeout).2,
          (sleepBefore ovf attempt w).trace ++
            [Event.produce payload timeout true]⟩) := by
  rw [sendLoop]
  simp only [ha, if_true]
  split
  · rename_i h; simp [h]
  · rename_i e h; rw [hok] at h; cases h

/-- One iteration of the loop of `sendWithRetry` whose call of `Produce`
returns an error. -/
theorem sendLoop_succ_err (p : ProducerClient σ) (retries timeout : Int) (ovf : Int → Int)
    (payload : Bytes) (fuel : Nat) (attempt : Int) (w : World σ) (ha : attempt ≤ retries)
    (herr : (p.Produce (sleepBefore ovf attempt w).sink
      payload timeout).1 ≠ Option.none) :
    sendLoop p retries timeout ovf payload (fuel + 1) attempt w =
      sendLoop p retries timeout ovf payload fuel (wrapInt64 (attempt + 1))
        ⟨(p.Produce (sleepBefore ovf attempt w).sink
            payload timeout).2,
          (sleepBefore ovf attempt w).trace ++
            [Event.produce payload timeout false]⟩ := by
  rw [sendLoop]
  simp only [ha, if_true]
  split
  · rename_i h; exact absurd h herr
  · rename_i e h; simp [h]

theorem sendLoop_succ_exit (p : ProducerClient σ) (retries timeout : Int) (ovf : Int → Int)
    (payload : Bytes) (fuel : Nat) (attempt : Int) (w : World σ) (ha : ¬ attempt ≤ retries) :
    sendLoop p retries timeout ovf payload (fuel + 1) attempt w = (Outcome.done false, w) := by
  rw [sendLoop]
  simp only [ha, if_false]

theorem sleepBefore_sink (ovf : Int → Int) (attempt : Int) (w : World σ) :
    (sleepBefore ovf attempt w).sink = w.sink := by
  unfold sleepBefore World.log
  split <;> rfl

theorem sleepBefore_trace (ovf : Int → Int) (attempt : Int) (w : World σ) :
    ∃ evs, (sleepBefore ovf attempt w).trace = w.trace ++ evs ∧
      ∀ e ∈ evs, e.isProduce = false := by
  unfold sleepBefore World.log
  split
  · exact ⟨[Event.sleep (backoff ovf attempt)], rfl, by simp [Event.isProduce]⟩
  · exact ⟨[], by simp, by simp⟩

/-- With a retry count below the largest `int`, the loop of `sendWithRetry`
returns after at most `n` further calls of `Produce`, `n` being the number of
attempts left, and it returns true exactly when one of them returned nil. -/
theorem sendLoop_returns (p : ProducerClient σ) (retries timeout : Int) (ovf : Int → Int)
    (payload : Bytes) (hmax : retries < maxInt64) :
    ∀ (n fuel : Nat) (attempt : Int) (w : World σ), 0 ≤ attempt →
      attempt + n = retries + 1 → n < fuel →
      ∃ b w1 evs, sendLoop p retries timeout ovf payload fuel attempt w = (Outcome.done b, w1) ∧
        w1.trace = w.trace ++ evs ∧
        (evs.filter Event.isProduce).length ≤ n ∧
        (b = true ↔ ∃ e ∈ evs, e.isProduceOk = true) ∧
        (b = false → (evs.filter Event.isProduce).length = n)
  | 0, fuel, attempt, w, _, hn, hf => by
    obtain ⟨fuel, rfl⟩ : ∃ m, fuel = m + 1 := ⟨fuel - 1, by omega⟩
    have ha : ¬ attempt ≤ retries := by push_cast at hn; omega
    exact ⟨false, w, [], sendLoop_succ_exit p retries timeout ovf payload fuel attempt w ha,
      by simp, by simp, by simp, by simp⟩
  | n + 1, fuel, attempt, w, h0, hn, hf => by
    obtain ⟨fuel, rfl⟩ : ∃ m, fuel = m + 1 := ⟨fuel - 1, by omega⟩
    have ha : attempt ≤ retries := by push_cast at hn; omega
    obtain ⟨sl, hsl, hslp⟩ := sleepBefore_trace ovf attempt w
    by_cases hok : (p.Produce (sleepBefore ovf attempt w).sink payload timeout).1 = Option.none
    · refine ⟨true, _, sl ++ [Event.produce payload timeout true],
        sendLoop_succ_ok p retries timeout ovf payload fuel attempt w ha hok, ?_, ?_, ?_, ?_⟩
      · simp [hsl]
      · have : sl.filter Event.isProduce = [] := List.filter_eq_nil_iff.mpr (by
          intro e he; simp [hslp e he])
        simp [List.filter_append, this, Event.isProduce]
      · simp only [true_iff]
        exact ⟨Event.produce payload timeout true, by simp, rfl⟩
      · intro h; cases h
    · rw [sendLoop_succ_err p retries timeout ovf payload fuel attempt w ha hok]
      have hw : wrapInt64 (attempt + 1) = attempt + 1 :=
        wrapInt64_of_range (by omega) (by omega)
      rw [hw]
      obtain ⟨b, w1, evs, h1, h2, h3, h4, h5⟩ :=
        sendLoop_returns p retries timeout ovf payload hmax n fuel (attempt + 1)
          ⟨(p.Produce (sleepBefore ovf attempt w).sink payload timeout).2,
            (sleepBefore ovf attempt w).trace ++ [Event.produce payload timeout false]⟩
          (by omega) (by push_cast at hn ⊢; omega) (by omega)
      have hfil : sl.filter Event.isProduce = [] := List.filter_eq_nil_iff.mpr (by
        intro e he; simp [hslp e he])
      refine ⟨b, w1, sl ++ [Event.produce payload timeout false] ++ evs, h1, ?_, ?_, ?_, ?_⟩
      · rw [h2, hsl]; simp
      · simp only [List.filter_append, hfil, List.length_append]
        simp [Event.isProduce]
        omega
      · rw [h4]
        constructor
        · rintro ⟨e, he, hok1⟩
          exact ⟨e, by simp [he], hok1⟩
        · rintro ⟨e, he, hok1⟩
          simp only [List.mem_append, List.mem_singleton] at he
          rcases he with (he | he) | he
          · have := hslp e he
            cases e <;> simp_all [Event.isProduce, Event.isProduceOk]
          · subst he; simp [Event.isProduceOk] at hok1
          · exact ⟨e, he, hok1⟩
      · intro hb
        have := h5 hb
        simp only [List.filter_append, hfil, List.length_append]
        simp [Event.isProduce]
        omega

theorem execAll_ok (env : Faults) (hx : ∀ k, env.exec k = false) :
    ∀ (ids : List Int) (k : Nat) (w : DB), execAll env k ids w = Except.ok (w.markAll ids)
  | [], k, w => by simp [execAll, markAll_nil]
  | id :: ids, k, w => by
    simp only [execAll, hx k, Bool.false_eq_true, if_false]
    rw [execAll_ok env hx ids (k + 1), update_markAll]

theorem MarkSent_none (db : DB) (ids : List Int) :
    Store.MarkSent (Store.of db) ids Faults.none = (Option.none, Store.of (db.markAll ids)) := by
  rcases MarkSent_cases db ids Faults.none with h | h
  · exfalso
    apply h.1
    unfold Store.MarkSent Store.of DB.Begin Tx.Rollback Tx.Commit
    simp only
    by_cases h0 : ids.length = 0
    · simp [h0]
    · simp only [h0, if_false]
      have : execAll Faults.none 0 ids db = Except.ok (db.markAll ids) :=
        execAll_ok Faults.none (fun _ => rfl) ids 0 db
      simp [Faults.none, this]
      rw [show (⟨false, false, false, fun _ => false, false, fun _ => false, false, false⟩ :
        Faults) = Faults.none from rfl, this]
  · exact h

theorem FetchUnsent_none (db : DB) :
    Store.FetchUnsent (Store.of db) 100 Faults.none
      = Except.ok ((db.unsent.take 100).map scanRow) :=
  FetchUnsent_ok db 100 Faults.none rfl (fun _ => rfl)

/-- The flush of a forwarder on an open store with a producer, when the engine
reports no error and the loop over the batch returns. -/
theorem flushOnce_of_sendBatch (f : Forwarder σ) (db : DB) (p : ProducerClient σ)
    (hst : f.store = Store.of db) (hp : f.producer = some p) (ovf : Int → Int) (fuel : Nat)
    (w w1 : World σ) (ids : List Int) (hne : db.unsent.take 100 ≠ [])
    (hb : f.sendBatch ovf fuel ((db.unsent.take 100).map scanRow) []
      (w.log (Event.fetchUnsent 100)) = (Outcome.done ids, w1)) :
    f.flushOnce Faults.none ovf fuel w =
      (if ids.length > 0 then
        (Outcome.done (), { f with store := Store.of (db.markAll ids) },
          w1.log (Event.markSent ids Option.none))
      else (Outcome.done (), f, w1)) := by
  unfold Forwarder.flushOnce
  have h1 : ¬ (f.store.isNone = true ∨ f.producer.isNone = true) := by
    rw [hst, hp]; simp [Store.of]
  simp only [h1, if_false]
  rw [hst, FetchUnsent_none]
  simp only
  have h2 : ¬ (List.map scanRow (List.take 100 db.unsent)).length = 0 := by
    intro h
    exact hne (List.map_eq_nil_iff.mp (List.length_eq_zero.mp h))
  simp only [h2, if_false]
  rw [← hst, hb]
  simp only
  rw [hst, MarkSent_none]

theorem sendBatch_append (f : Forwarder σ) (ovf : Int → Int) (fuel : Nat) :
    ∀ (pre : List Message) (acc : List Int) (w w1 : World σ),
      f.sendBatch ovf fuel pre acc w = (Outcome.done (acc ++ pre.map Message.ID), w1) →
      ∀ rest, f.sendBatch ovf fuel (pre ++ rest) acc w
        = f.sendBatch ovf fuel rest (acc ++ pre.map Message.ID) w1
  | [], acc, w, w1, h, rest => by
    simp only [Forwarder.sendBatch, Prod.mk.injEq] at h
    simp [h.2]
  | m :: ms, acc, w, w1, h, rest => by
    simp only [List.cons_append, Forwarder.sendBatch] at h ⊢
    split at h
    · rename_i w2 heq
      have h' : f.sendBatch ovf fuel ms (acc ++ [m.ID]) w2
          = (Outcome.done ((acc ++ [m.ID]) ++ ms.map Message.ID), w1) := by
        rw [h]; simp
      have := sendBatch_append f ovf fuel ms (acc ++ [m.ID]) w2 w1 h' rest
      show f.sendBatch ovf fuel (ms ++ rest) (acc ++ [m.ID]) w2 = _
      rw [this]; simp
    · rename_i w2 heq
      simp only [Prod.mk.injEq, Outcome.done.injEq] at h
      have := congrArg List.length h.1
      simp at this
    · simp at h
    · simp at h

theorem sendBatch_fail (f : Forwarder σ) (ovf : Int → Int) (fuel : Nat) (m : Message)
    (ms : List Message) (acc : List Int) (w w1 : World σ)
    (h : f.sendWithRetry ovf fuel m.Payload w = (Outcome.done false, w1)) :
    f.sendBatch ovf fuel (m :: ms) acc w = (Outcome.done acc, w1) := by
  simp only [Forwarder.sendBatch, h]

/-- The flush of a forwarder whose store holds exactly one pending row. -/
theorem flushOnce_single (f : Forwarder σ) (db : DB) (p : ProducerClient σ)
    (hst : f.store = Store.of db) (hp : f.producer = some p) (ovf : Int → Int) (fuel : Nat)
    (w w1 : World σ) (r : Row) (hone : db.unsent = [r]) (b : Bool)
    (hsend : f.sendWithRetry ovf fuel r.payload (w.log (Event.fetchUnsent 100))
      = (Outcome.done b, w1)) :
    f.flushOnce Faults.none ovf fuel w =
      (Outcome.done (),
        { f with store := if b then Store.of (db.markAll [r.id]) else Store.of db },
        if b then w1.log (Event.markSent [r.id] Option.none) else w1) := by
  have hne : db.unsent.take 100 ≠ [] := by rw [hone]; simp
  have hb : f.sendBatch ovf fuel ((db.unsent.take 100).map scanRow) []
      (w.log (Event.fetchUnsent 100)) = (Outcome.done (if b then [r.id] else []), w1) := by
    rw [hone]
    simp only [List.take, List.map, Forwarder.sendBatch]
    have : (scanRow r).Payload = r.payload := rfl
    rw [this, hsend]
    cases b <;> simp [Forwarder.sendBatch, scanRow]
  rw [flushOnce_of_sendBatch f db p hst hp ovf fuel w w1 _ hne hb]
  cases b
  · simp only [Bool.false_eq_true, if_false, List.length_nil, gt_iff_lt, lt_self_iff_false]
    congr 2
    cases f; simp_all
  · simp only [if_true, List.length_singleton, gt_iff_lt, zero_lt_one]

theorem sendWithRetry_eq (f : Forwarder σ) (p : ProducerClient σ) (hp : f.producer = some p)
    (ovf : Int → Int) (fuel : Nat) (payload : Bytes) (w : World σ) :
    f.sendWithRetry ovf fuel payload w
      = sendLoop p f.retries f.timeout ovf payload fuel 0 w := by
  simp [Forwarder.sendWithRetry, hp]

theorem flushOnce_empty (f : Forwarder σ) (db : DB) (p : ProducerClient σ)
    (hst : f.store = Store.of db) (hp : f.producer = some p) (ovf : Int → Int) (fuel : Nat)
    (w : World σ) (hnil : db.unsent.take 100 = []) :
    f.flushOnce Faults.none ovf fuel w = (Outcome.done (), f, w.log (Event.fetchUnsent 100)) := by
  unfold Forwarder.flushOnce
  have h1 : ¬ (f.store.isNone = true ∨ f.producer.isNone = true) := by
    rw [hst, hp]; simp [Store.of]
  simp only [h1, if_false]
  rw [hst, FetchUnsent_none, hnil]
  simp

theorem New_retries (store : Option Store) (producer : Option (ProducerClient σ))
    (interval retries timeout : Int) (h0 : 0 ≤ retries) :
    (New store producer interval retries timeout).retries = retries := by
  have : ¬ retries < 0 := by omega
  simp [New, this]

/-- With the largest `int` as retry count the counter of `sendWithRetry` wraps
around instead of leaving the loop: against `failFirst k`, after `n` failures
that bring the counter (`a` before wrapping) to `2^63`, the next call is made
with the counter at `-2^63`. -/
theorem failFirst_wraps (k : Nat) (timeout : Int) (ovf : Int → Int) (payload : Bytes) :
    ∀ (n fuel : Nat) (a : Int) (c : Nat) (tr : List Event), 0 ≤ a →
      a + n = 2 ^ 63 → n < fuel → c + n = k →
      ∃ tr1, sendLoop (failFirst k) maxInt64 timeout ovf payload fuel (wrapInt64 a) ⟨c, tr⟩
        = (Outcome.done true, ⟨k + 1, tr1⟩)
  | 0, fuel, a, c, tr, _, hn, hf, hk => by
    obtain ⟨fuel, rfl⟩ : ∃ m, fuel = m + 1 := ⟨fuel - 1, by omega⟩
    have ha : wrapInt64 a ≤ maxInt64 := (wrapInt64_range a).2
    have hok : ((failFirst k).Produce (sleepBefore ovf (wrapInt64 a) ⟨c, tr⟩).sink payload
        timeout).1 = Option.none := by
      rw [sleepBefore_sink]
      have : ¬ c < k := by omega
      simp [failFirst, this]
    rw [sendLoop_succ_ok _ maxInt64 timeout ovf payload fuel _ _ ha hok, sleepBefore_sink]
    have : c = k := by omega
    subst this
    exact ⟨_, rfl⟩
  | n + 1, fuel, a, c, tr, h0, hn, hf, hk => by
    obtain ⟨fuel, rfl⟩ : ∃ m, fuel = m + 1 := ⟨fuel - 1, by omega⟩
    have ha : wrapInt64 a ≤ maxInt64 := (wrapInt64_range a).2
    have hw : wrapInt64 a = a :=
      wrapInt64_of_range (by omega) (by unfold maxInt64; push_cast at hn; omega)
    have hc : c < k := by omega
    have herr : ((failFirst k).Produce (sleepBefore ovf (wrapInt64 a) ⟨c, tr⟩).sink payload
        timeout).1 ≠ Option.none := by
      rw [sleepBefore_sink]; simp [failFirst, hc]
    rw [sendLoop_succ_err _ maxInt64 timeout ovf payload fuel _ _ ha herr, sleepBefore_sink]
    rw [hw]
    exact failFirst_wraps k timeout ovf payload n fuel (a + 1) (c + 1) _ (by omega)
      (by push_cast at hn ⊢; omega) (by omega) (by omega)

/-- With the largest `int` as retry count and a producer that always fails,
the loop of `sendWithRetry` is still running after any number of iterations. -/
theorem sendLoop_never_returns (p : ProducerClient σ) (timeout : Int) (ovf : Int → Int)
    (payload : Bytes) (hfail : ∀ st, (p.Produce st payload timeout).1 ≠ Option.none) :
    ∀ (fuel : Nat) (attempt : Int) (w : World σ), attempt ≤ maxInt64 →
      (sendLoop p maxInt64 timeout ovf payload fuel attempt w).1 = Outcome.running
  | 0, attempt, w, _ => rfl
  | fuel + 1, attempt, w, ha => by
    rw [sendLoop_succ_err p maxInt64 timeout ovf payload fuel attempt w ha (hfail _)]
    exact sendLoop_never_returns p timeout ovf payload hfail fuel _ _ (wrapInt64_range _).2

theorem New_retries_nonneg (store : Option Store) (producer : Option (ProducerClient σ))
    (interval retries timeout : Int) :
    0 ≤ (New store producer interval retries timeout).retries := by
  unfold New
  simp only
  split <;> omega

/-- With a producer that accepts the payload, `sendWithRetry` returns true after
one call of `Produce` and no sleep. -/
theorem sendLoop_first_ok (p : ProducerClient σ) (retries timeout : Int) (ovf : Int → Int)
    (payload : Bytes) (h0 : 0 ≤ retries) (fuel : Nat) (hfuel : 0 < fuel) (w : World σ)
    (hok : ∀ st, (p.Produce st payload timeout).1 = Option.none) :
    sendLoop p retries timeout ovf payload fuel 0 w =
      (Outcome.done true,
        ⟨(p.Produce w.sink payload timeout).2,
          w.trace ++ [Event.produce payload timeout true]⟩) := by
  obtain ⟨fuel, rfl⟩ : ∃ m, fuel = m + 1 := ⟨fuel - 1, by omega⟩
  rw [sendLoop_succ_ok p retries timeout ovf payload fuel 0 w h0 (hok _)]
  have : sleepBefore ovf 0 w = w := by simp [sleepBefore]
  rw [this]

/-- With a producer that always succeeds the loop of `flushOnce` delivers every
message of the batch with one call of `Produce` each, in the order of the
batch. -/
theorem sendBatch_all_ok (f : Forwarder σ) (p : ProducerClient σ) (hp : f.producer = some p)
    (h0 : 0 ≤ f.retries) (ovf : Int → Int) (fuel : Nat) (hfuel : 0 < fuel)
    (hok : ∀ st pl t, (p.Produce st pl t).1 = Option.none) :
    ∀ (msgs : List Message) (acc : List Int) (w : World σ),
      ∃ st, f.sendBatch ovf fuel msgs acc w =
        (Outcome.done (acc ++ msgs.map Message.ID),
          ⟨st, w.trace ++ msgs.map (fun m => Event.produce m.Payload f.timeout true)⟩)
  | [], acc, w => ⟨w.sink, by simp [Forwarder.sendBatch]⟩
  | m :: ms, acc, w => by
    have h1 : f.sendWithRetry ovf fuel m.Payload w =
        (Outcome.done true, ⟨(p.Produce w.sink m.Payload f.timeout).2,
          w.trace ++ [Event.produce m.Payload f.timeout true]⟩) := by
      rw [sendWithRetry_eq f p hp]
      exact sendLoop_first_ok p f.retries f.timeout ovf m.Payload h0 fuel hfuel w
        (fun st => hok st _ _)
    obtain ⟨st, h2⟩ := sendBatch_all_ok f p hp h0 ovf fuel hfuel hok ms (acc ++ [m.ID])
      ⟨(p.Produce w.sink m.Payload f.timeout).2,
        w.trace ++ [Event.produce m.Payload f.timeout true]⟩
    refine ⟨st, ?_⟩
    simp only [Forwarder.sendBatch, h1, h2]
    simp

theorem unsent_markAll_all {db : DB} (hle : db.unsent.length ≤ 100) :
    (db.markAll ((db.unsent.take 100).map Row.id)).unsent = [] := by
  apply List.eq_nil_iff_forall_not_mem.mpr
  intro x hx
  have h := mem_unsent_markAll.mp hx
  rw [List.take_of_length_le hle] at h
  exact h.2 (List.mem_map_of_mem _ h.1)

/-- Whatever the number of iterations, the loop of `sendWithRetry` only adds
events to the trace, and each call of `Produce` among them carries the timeout
it was given. -/
theorem sendLoop_trace (p : ProducerClient σ) (retries timeout : Int) (ovf : Int → Int)
    (payload : Bytes) :
    ∀ (fuel : Nat) (attempt : Int) (w : World σ),
      ∃ evs, (sendLoop p retries timeout ovf payload fuel attempt w).2.trace = w.trace ++ evs ∧
        ∀ pl t ok, Event.produce pl t ok ∈ evs → t = timeout
  | 0, attempt, w => ⟨[], by simp [sendLoop], by simp⟩
  | fuel + 1, attempt, w => by
    by_cases ha : attempt ≤ retries
    · obtain ⟨sl, hsl, hslp⟩ := sleepBefore_trace ovf attempt w
      have hnp : ∀ pl t ok, Event.produce pl t ok ∉ sl := by
        intro pl t ok hmem
        have := hslp _ hmem
        simp [Event.isProduce] at this
      by_cases hok : (p.Produce (sleepBefore ovf attempt w).sink payload timeout).1 = Option.none
      · rw [sendLoop_succ_ok p retries timeout ovf payload fuel attempt w ha hok]
        refine ⟨sl ++ [Event.produce payload timeout true], by simp [hsl], ?_⟩
        intro pl t ok hmem
        rcases List.mem_append.mp hmem with h | h
        · exact absurd h (hnp pl t ok)
        · simp only [List.mem_singleton, Event.produce.injEq] at h
          exact h.2.1
      · rw [sendLoop_succ_err p retries timeout ovf payload fuel attempt w ha hok]
        obtain ⟨evs, h1, h2⟩ := sendLoop_trace p retries timeout ovf payload fuel
          (wrapInt64 (attempt + 1))
          ⟨(p.Produce (sleepBefore ovf attempt w).sink payload timeout).2,
            (sleepBefore ovf attempt w).trace ++ [Event.produce payload timeout false]⟩
        refine ⟨sl ++ [Event.produce payload timeout false] ++ evs, by rw [h1, hsl]; simp, ?_⟩
        intro pl t ok hmem
        simp only [List.mem_append, List.mem_singleton] at hmem
        rcases hmem with (h | h) | h
        · exact absurd h (hnp pl t ok)
        · simp only [Event.produce.injEq] at h
          exact h.2.1
        · exact h2 pl t ok h
    · rw [sendLoop_succ_exit p retries timeout ovf payload fuel attempt w ha]
      exact ⟨[], by simp, by simp⟩

theorem sendWithRetry_trace (f : Forwarder σ) (ovf : Int → Int) (fuel : Nat) (payload : Bytes)
    (w : World σ) :
    ∃ evs, (f.sendWithRetry ovf fuel payload w).2.trace = w.trace ++ evs ∧
      ∀ pl t ok, Event.produce pl t ok ∈ evs → t = f.timeout := by
  unfold Forwarder.sendWithRetry
  cases f.producer with
  | none => exact ⟨[], by simp, by simp⟩
  | some p => exact sendLoop_trace p f.retries f.timeout ovf payload fuel 0 w

theorem sendBatch_trace (f : Forwarder σ) (ovf : Int → Int) (fuel : Nat) :
    ∀ (msgs : List Message) (acc : List Int) (w : World σ),
      ∃ evs, (f.sendBatch ovf fuel msgs acc w).2.trace = w.trace ++ evs ∧
        ∀ pl t ok, Event.produce pl t ok ∈ evs → t = f.timeout
  | [], acc, w => ⟨[], by simp [Forwarder.sendBatch], by simp⟩
  | m :: ms, acc, w => by
    obtain ⟨evs, h1, h2⟩ := sendWithRetry_trace f ovf fuel m.Payload w
    cases hres : f.sendWithRetry ovf fuel m.Payload w with
    | mk o w1 =>
      rw [hres] at h1
      simp only at h1
      cases o with
      | done b =>
        cases b with
        | true =>
          obtain ⟨evs2, h3, h4⟩ := sendBatch_trace f ovf fuel ms (acc ++ [m.ID]) w1
          refine ⟨evs ++ evs2, ?_, ?_⟩
          · simp only [Forwarder.sendBatch, hres]
            rw [h3, h1]; simp
          · intro pl t ok hmem
            rcases List.mem_append.mp hmem with h | h
            · exact h2 pl t ok h
            · exact h4 pl t ok h
        | false => exact ⟨evs, by simp only [Forwarder.sendBatch, hres]; exact h1, h2⟩
      | running => exact ⟨evs, by simp only [Forwarder.sendBatch, hres]; exact h1, h2⟩
      | panic => exact ⟨evs, by simp only [Forwarder.sendBatch, hres]; exact h1, h2⟩

theorem flushOnce_trace (f : Forwarder σ) (env : Faults) (ovf : Int → Int) (fuel : Nat)
    (w : World σ) :
    ∃ evs, (f.flushOnce env ovf fuel w).2.2.trace = w.trace ++ evs ∧
      ∀ pl t ok, Event.produce pl t ok ∈ evs → t = f.timeout := by
  unfold Forwarder.flushOnce
  split
  · exact ⟨[], by simp, by simp⟩
  · simp only
    split
    · exact ⟨[Event.fetchUnsent 100], by simp [World.log], by simp⟩
    · rename_i msgs _
      split
      · exact ⟨[Event.fetchUnsent 100], by simp [World.log], by simp⟩
      · obtain ⟨evs, h1, h2⟩ := sendBatch_trace f ovf fuel msgs [] (w.log (Event.fetchUnsent 100))
        split
        · rename_i sentIDs w1 heq
          rw [heq] at h1
          simp only at h1
          split
          · refine ⟨[Event.fetchUnsent 100] ++ evs ++
              [Event.markSent sentIDs (Store.MarkSent f.store sentIDs env).1], ?_, ?_⟩
            · simp only [World.log, h1]; simp
            · intro pl t ok hmem
              simp only [List.mem_append, List.mem_singleton] at hmem
              rcases hmem with (h | h) | h
              · cases h
              · exact h2 pl t ok h
              · cases h
          · refine ⟨[Event.fetchUnsent 100] ++ evs, ?_, ?_⟩
            · simp only [World.log, h1]; simp
            · intro pl t ok hmem
              simp only [List.mem_append, List.mem_singleton] at hmem
              rcases hmem with h | h
              · cases h
              · exact h2 pl t ok h
        · rename_i w1 heq
          rw [heq] at h1
          simp only at h1
          refine ⟨[Event.fetchUnsent 100] ++ evs, ?_, ?_⟩
          · simp only [World.log, h1]; simp
          · intro pl t ok hmem
            simp only [List.mem_append, List.mem_singleton] at hmem
            rcases hmem with h | h
            · cases h
            · exact h2 pl t ok h
        · rename_i w1 heq
          rw [heq] at h1
          simp only at h1
          refine ⟨[Event.fetchUnsent 100] ++ evs, ?_, ?_⟩
          · simp only [World.log, h1]; simp
          · intro pl t ok hmem
            simp only [List.mem_append, List.mem_singleton] at hmem
            rcases hmem with h | h
            · cases h
            · exact h2 pl t ok h

theorem wrapInt64_mul_millisecond (x : Int) :
    wrapInt64 (wrapInt64 (x * 500) * millisecond) = wrapInt64 (x * 500 * millisecond) := by
  unfold wrapInt64 millisecond
  omega

/-- Up to retry 63 the back-off is the product `500 ms * 2^(k-1)` reduced to a
signed 64-bit value. -/
theorem backoff_wrapped (ovf : Int → Int) (k : Int) (h1 : 1 ≤ k) (h2 : k ≤ 63) :
    backoff ovf k = wrapInt64 (500 * millisecond * 2 ^ (k - 1).toNat) := by
  unfold backoff pow2Duration
  have ha : ¬ k - 1 < 0 := by omega
  have hb : k - 1 < 63 := by omega
  simp only [ha, hb, if_true, if_false]
  rw [wrapInt64_mul_millisecond]
  congr 1
  ring

/-- Up to retry 35 the product fits 64 bits and the back-off is exactly
`500 ms * 2^(k-1)`. -/
theorem backoff_exact (ovf : Int → Int) (k : Int) (h1 : 1 ≤ k) (h2 : k ≤ 35) :
    backoff ovf k = 500 * millisecond * 2 ^ (k - 1).toNat := by
  rw [backoff_wrapped ovf k h1 (by omega)]
  apply wrapInt64_of_range
  · have : (0 : Int) ≤ 500 * millisecond * 2 ^ (k - 1).toNat := by
      unfold millisecond; positivity
    omega
  · have hp : (2 : Int) ^ (k - 1).toNat ≤ 2 ^ 34 :=
      pow_le_pow_right₀ (by norm_num) (by omega)
    unfold maxInt64 millisecond
    omega

/-- The trace of the loop of `sendWithRetry` from a retry `a ≥ 1` on, as long
as the counter does not wrap: the events of the retries `a`, `a + 1`, ... -/
theorem sendLoop_retryEvents (p : ProducerClient σ) (retries timeout : Int) (ovf : Int → Int)
    (payload : Bytes) :
    ∀ (fuel : Nat) (a : Int) (w : World σ), 1 ≤ a →
      (retries < maxInt64 ∨ a + fuel ≤ maxInt64) →
      ∃ oks, (sendLoop p retries timeout ovf payload fuel a w).2.trace
          = w.trace ++ retryEvents (backoff ovf) payload timeout a oks ∧
        a + oks.length ≤ max a (retries + 1)
  | 0, a, w, _, _ => ⟨[], by simp [sendLoop, retryEvents], by simp⟩
  | fuel + 1, a, w, ha, hr => by
    by_cases hle : a ≤ retries
    · have hsl : sleepBefore ovf a w = w.log (Event.sleep (backoff ovf a)) := by
        have : a > 0 := by omega
        simp [sleepBefore, this]
      by_cases hok : (p.Produce (sleepBefore ovf a w).sink payload timeout).1 = Option.none
      · rw [sendLoop_succ_ok p retries timeout ovf payload fuel a w hle hok, hsl]
        refine ⟨[true], by simp [retryEvents, World.log], ?_⟩
        simp only [List.length_singleton, Nat.cast_one]
        have : retries + 1 ≤ max a (retries + 1) := le_max_right _ _
        omega
      · rw [sendLoop_succ_err p retries timeout ovf payload fuel a w hle hok]
        have hw : wrapInt64 (a + 1) = a + 1 :=
          wrapInt64_of_range (by omega) (by rcases hr with h | h <;> push_cast at * <;> omega)
        rw [hw]
        obtain ⟨oks, h1, h2⟩ := sendLoop_retryEvents p retries timeout ovf payload fuel (a + 1)
          ⟨(p.Produce (sleepBefore ovf a w).sink payload timeout).2,
            (sleepBefore ovf a w).trace ++ [Event.produce payload timeout false]⟩
          (by omega) (by rcases hr with h | h
                         · exact Or.inl h
                         · right; push_cast at h ⊢; omega)
        refine ⟨false :: oks, ?_, ?_⟩
        · rw [h1, hsl]; simp [retryEvents, World.log]
        · simp only [List.length_cons, Nat.cast_add, Nat.cast_one]
          have h3 : max (a + 1) (retries + 1) = retries + 1 := max_eq_right (by omega)
          have h4 : max a (retries + 1) = retries + 1 := max_eq_right (by omega)
          rw [h3] at h2; rw [h4]; omega
    · rw [sendLoop_succ_exit p retries timeout ovf payload fuel a w hle]
      exact ⟨[], by simp [retryEvents], by simp⟩

theorem sleepBefore_delivery (ovf : Int → Int) (attempt : Int) (w : World σ) :
    ∃ evs, (sleepBefore ovf attempt w).trace = w.trace ++ evs ∧
      ∀ e ∈ evs, e.isDelivery = true := by
  unfold sleepBefore World.log
  split
  · exact ⟨[Event.sleep (backoff ovf attempt)], rfl, by simp [Event.isDelivery]⟩
  · exact ⟨[], by simp, by simp⟩

/-- The loop of `sendWithRetry` adds nothing but sleeps and calls of `Produce`
to the trace. -/
theorem sendLoop_delivery (p : ProducerClient σ) (retries timeout : Int) (ovf : Int → Int)
    (payload : Bytes) :
    ∀ (fuel : Nat) (attempt : Int) (w : World σ),
      ∃ evs, (sendLoop p retries timeout ovf payload fuel attempt w).2.trace = w.trace ++ evs ∧
        ∀ e ∈ evs, e.isDelivery = true
  | 0, attempt, w => ⟨[], by simp [sendLoop], by simp⟩
  | fuel + 1, attempt, w => by
    by_cases ha : attempt ≤ retries
    · obtain ⟨sl, hsl, hslp⟩ := sleepBefore_delivery ovf attempt w
      by_cases hok : (p.Produce (sleepBefore ovf attempt w).sink payload timeout).1 = Option.none
      · rw [sendLoop_succ_ok p retries timeout ovf payload fuel attempt w ha hok]
        refine ⟨sl ++ [Event.produce payload timeout true], by simp [hsl], ?_⟩
        intro e he
        rcases List.mem_append.mp he with h | h
        · exact hslp e h
        · simp only [List.mem_singleton] at h; subst h; rfl
      · rw [sendLoop_succ_err p retries timeout ovf payload fuel attempt w ha hok]
        obtain ⟨evs, h1, h2⟩ := sendLoop_delivery p retries timeout ovf payload fuel
          (wrapInt64 (attempt + 1))
          ⟨(p.Produce (sleepBefore ovf attempt w).sink payload timeout).2,
            (sleepBefore ovf attempt w).trace ++ [Event.produce payload timeout false]⟩
        refine ⟨sl ++ [Event.produce payload timeout false] ++ evs, by rw [h1, hsl]; simp, ?_⟩
        intro e he
        simp only [List.mem_append, List.mem_singleton] at he
        rcases he with (h | h) | h
        · exact hslp e h
        · subst h; rfl
        · exact h2 e h
    · rw [sendLoop_succ_exit p retries timeout ovf payload fuel attempt w ha]
      exact ⟨[], by simp, by simp⟩

theorem sendWithRetry_delivery (f : Forwarder σ) (ovf : Int → Int) (fuel : Nat)
    (payload : Bytes) (w : World σ) :
    ∃ evs, (f.sendWithRetry ovf fuel payload w).2.trace = w.trace ++ evs ∧
      ∀ e ∈ evs, e.isDelivery = true := by
  unfold Forwarder.sendWithRetry
  cases f.producer with
  | none => exact ⟨[], by simp, by simp⟩
  | some p => exact sendLoop_delivery p f.retries f.timeout ovf payload fuel 0 w

theorem sendBatch_delivery (f : Forwarder σ) (ovf : Int → Int) (fuel : Nat) :
    ∀ (msgs : List Message) (acc : List Int) (w : World σ),
      ∃ evs, (f.sendBatch ovf fuel msgs acc w).2.trace = w.trace ++ evs ∧
        ∀ e ∈ evs, e.isDelivery = true
  | [], acc, w => ⟨[], by simp [Forwarder.sendBatch], by simp⟩
  | m :: ms, acc, w => by
    obtain ⟨evs, h1, h2⟩ := sendWithRetry_delivery f ovf fuel m.Payload w
    cases hres : f.sendWithRetry ovf fuel m.Payload w with
    | mk o w1 =>
      rw [hres] at h1
      simp only at h1
      cases o with
      | done b =>
        cases b with
        | true =>
          obtain ⟨evs2, h3, h4⟩ := sendBatch_delivery f ovf fuel ms (acc ++ [m.ID]) w1
          refine ⟨evs ++ evs2, ?_, ?_⟩
          · simp only [Forwarder.sendBatch, hres]
            rw [h3, h1]; simp
          · intro e he
            rcases List.mem_append.mp he with h | h
            · exact h2 e h
            · exact h4 e h
        | false => exact ⟨evs, by simp only [Forwarder.sendBatch, hres]; exact h1, h2⟩
      | running => exact ⟨evs, by simp only [Forwarder.sendBatch, hres]; exact h1, h2⟩
      | panic => exact ⟨evs, by simp only [Forwarder.sendBatch, hres]; exact h1, h2⟩

theorem last_not_markSent (tr evs : List Event) (ids : List Int) (err : Option Err)
    (hd : ∀ e ∈ evs, e.isDelivery = true) :
    (tr ++ Event.fetchUnsent 100 :: evs).getLast? ≠ some (Event.markSent ids err) := by
  intro h
  rw [List.getLast?_append_of_ne_nil _ (by simp)] at h
  have hm := List.mem_of_getLast?_eq_some h
  rcases List.mem_cons.mp hm with h1 | h1
  · cases h1
  · have := hd _ h1
    simp [Event.isDelivery] at this

/-- A flush on an open store with a producer whose trace ends with a call of
`MarkSent`: the fetch returned a batch, the loop over it delivered the ids
listed, and the store after the flush is the one that call left. -/
theorem flushOnce_markSent_inv (f : Forwarder σ) (db : DB) (p : ProducerClient σ)
    (hst : f.store = Store.of db) (hp : f.producer = some p) (env : Faults)
    (ovf : Int → Int) (fuel : Nat) (w w1 : World σ) (o : Outcome Unit) (f1 : Forwarder σ)
    (ids : List Int) (err : Option Err)
    (h : f.flushOnce env ovf fuel w = (o, f1, w1))
    (hlast : w1.trace.getLast? = some (Event.markSent ids err)) :
    ∃ msgs w0, Store.FetchUnsent (Store.of db) 100 env = Except.ok msgs ∧
      f.sendBatch ovf fuel msgs [] (w.log (Event.fetchUnsent 100)) = (Outcome.done ids, w0) ∧
      ids ≠ [] ∧ err = (Store.MarkSent (Store.of db) ids env).1 ∧
      f1 = { f with store := (Store.MarkSent (Store.of db) ids env).2 } ∧
      o = Outcome.done () := by
  unfold Forwarder.flushOnce at h
  have h1 : ¬ (f.store.isNone = true ∨ f.producer.isNone = true) := by
    rw [hst, hp]; simp [Store.of]
  simp only [h1, if_false] at h
  rw [hst] at h
  cases hfe : Store.FetchUnsent (Store.of db) 100 env with
  | error e =>
    rw [hfe] at h
    simp only [Prod.mk.injEq] at h
    obtain ⟨-, -, rfl⟩ := h
    exact absurd hlast (by simp [World.log])
  | ok msgs =>
    rw [hfe] at h
    simp only at h
    by_cases hlen : msgs.length = 0
    · simp only [hlen, if_true, Prod.mk.injEq] at h
      obtain ⟨-, -, rfl⟩ := h
      exact absurd hlast (by simp [World.log])
    · simp only [hlen, if_false] at h
      obtain ⟨evs, he1, he2⟩ := sendBatch_delivery f ovf fuel msgs []
        (w.log (Event.fetchUnsent 100))
      cases hb : f.sendBatch ovf fuel msgs [] (w.log (Event.fetchUnsent 100)) with
      | mk ob wb =>
        rw [hb] at h he1
        simp only at he1
        have hwb : wb.trace = w.trace ++ Event.fetchUnsent 100 :: evs := by
          rw [he1]; simp [World.log]
        cases ob with
        | done sentIDs =>
          simp only at h
          by_cases hpos : sentIDs.length > 0
          · simp only [hpos, if_true, Prod.mk.injEq] at h
            obtain ⟨ho, hf1, hw1⟩ := h
            rw [← hw1] at hlast
            simp only [World.log, List.getLast?_concat, Option.some.injEq,
              Event.markSent.injEq] at hlast
            obtain ⟨hids, herr⟩ := hlast
            subst hids
            refine ⟨msgs, wb, rfl, hb, ?_, herr.symm, ?_, ho.symm⟩
            · intro hnil; rw [hnil] at hpos; simp at hpos
            · exact hf1.symm
          · simp only [hpos, if_false, Prod.mk.injEq] at h
            obtain ⟨-, -, rfl⟩ := h
            rw [hwb] at hlast
            exact absurd hlast (last_not_markSent w.trace evs ids err he2)
        | running =>
          simp only [Prod.mk.injEq] at h
          obtain ⟨-, -, rfl⟩ := h
          rw [hwb] at hlast
          exact absurd hlast (last_not_markSent w.trace evs ids err he2)
        | panic =>
          simp only [Prod.mk.injEq] at h
          obtain ⟨-, -, rfl⟩ := h
          rw [hwb] at hlast
          exact absurd hlast (last_not_markSent w.trace evs ids err he2)

/-- The first iteration of `sendWithRetry` calls `Produce` without sleeping. -/
theorem sendLoop_head (p : ProducerClient σ) (retries timeout : Int) (ovf : Int → Int)
    (payload : Bytes) (h0 : 0 ≤ retries) (fuel : Nat) (w : World σ) :
    ∃ ok rest, (sendLoop p retries timeout ovf payload (fuel + 1) 0 w).2.trace
      = w.trace ++ Event.produce payload timeout ok :: rest := by
  have hsl : sleepBefore ovf 0 w = w := by simp [sleepBefore]
  by_cases hok : (p.Produce (sleepBefore ovf 0 w).sink payload timeout).1 = Option.none
  · rw [sendLoop_succ_ok p retries timeout ovf payload fuel 0 w h0 hok, hsl]
    exact ⟨true, [], rfl⟩
  · rw [sendLoop_succ_err p retries timeout ovf payload fuel 0 w h0 hok, hsl]
    obtain ⟨evs, h1, -⟩ := sendLoop_delivery p retries timeout ovf payload fuel
      (wrapInt64 (0 + 1))
      ⟨(p.Produce w.sink payload timeout).2, w.trace ++ [Event.produce payload timeout false]⟩
    exact ⟨false, evs, by rw [h1]; simp⟩

/-- The loop of `flushOnce` starts with a call of `Produce` for the first
message of the batch. -/
theorem sendBatch_head (f : Forwarder σ) (p : ProducerClient σ) (hp : f.producer = some p)
    (h0 : 0 ≤ f.retries) (ovf : Int → Int) (fuel : Nat) (m : Message) (ms : List Message)
    (acc : List Int) (w : World σ) :
    ∃ ok rest, (f.sendBatch ovf (fuel + 1) (m :: ms) acc w).2.trace
      = w.trace ++ Event.produce m.Payload f.timeout ok :: rest := by
  obtain ⟨ok, rest, h1⟩ := sendLoop_head p f.retries f.timeout ovf m.Payload h0 fuel w
  rw [← sendWithRetry_eq f p hp] at h1
  cases hres : f.sendWithRetry ovf (fuel + 1) m.Payload w with
  | mk o w1 =>
    rw [hres] at h1
    simp only at h1
    cases o with
    | done b =>
      cases b with
      | true =>
        obtain ⟨evs2, h3, -⟩ := sendBatch_delivery f ovf (fuel + 1) ms (acc ++ [m.ID]) w1
        refine ⟨ok, rest ++ evs2, ?_⟩
        simp only [Forwarder.sendBatch, hres]
        rw [h3, h1]; simp
      | false => exact ⟨ok, rest, by simp only [Forwarder.sendBatch, hres]; exact h1⟩
    | running => exact ⟨ok, rest, by simp only [Forwarder.sendBatch, hres]; exact h1⟩
    | panic => exact ⟨ok, rest, by simp only [Forwarder.sendBatch, hres]; exact h1⟩

/-- The trace of a flush whose fetch returned a batch that is not empty
extends the trace of the loop over the batch. -/
theorem flushOnce_trace_of_fetch (f : Forwarder σ) (db : DB) (p : ProducerClient σ)
    (hst : f.store = Store.of db) (hp : f.producer = some p) (env : Faults)
    (hq : env.query = false) (hs : ∀ k, env.scan k = false) (ovf : Int → Int) (fuel : Nat)
    (w : World σ) (hne : db.unsent.take 100 ≠ []) :
    ∃ tail, (f.flushOnce env ovf fuel w).2.2.trace
      = (f.sendBatch ovf fuel ((db.unsent.take 100).map scanRow) []
          (w.log (Event.fetchUnsent 100))).2.trace ++ tail := by
  unfold Forwarder.flushOnce
  have h1 : ¬ (f.store.isNone = true ∨ f.producer.isNone = true) := by
    rw [hst, hp]; simp [Store.of]
  simp only [h1, if_false]
  rw [hst, FetchUnsent_ok db 100 env hq hs]
  have hfl : fetchLimit 100 = 100 := rfl
  rw [hfl]
  simp only
  have h2 : ¬ (List.map scanRow (List.take 100 db.unsent)).length = 0 := by
    intro h
    exact hne (List.map_eq_nil_iff.mp (List.length_eq_zero.mp h))
  simp only [h2, if_false]
  cases hb : f.sendBatch ovf fuel (List.map scanRow (List.take 100 db.unsent)) []
      (w.log (Event.fetchUnsent 100)) with
  | mk ob wb =>
    cases ob with
    | done sentIDs =>
      simp only
      split
      · exact ⟨[Event.markSent sentIDs (Store.MarkSent (Store.of db) sentIDs env).1],
          by simp [World.log]⟩
      · exact ⟨[], by simp⟩
    | running => exact ⟨[], by simp⟩
    | panic => exact ⟨[], by simp⟩

end ForwarderLemmas

/-! ## Facts about the loop -/

section LoopLemmas

theorem run_append (s : LoopState) (l1 l2 : List LoopLabel) :
    s.run (l1 ++ l2) = (s.run l1).bind (fun s1 => s1.run l2) := by
  induction l1 generalizing s with
  | nil => rfl
  | cons l ls ih =>
    simp only [List.cons_append, LoopState.run]
    split
    · exact ih _
    · rfl

theorem next_cancel (s : LoopState) (l : LoopLabel) : (s.next l).cancel = s.cancel := by
  cases l <;> simp [LoopState.next]
  split <;> rfl

theorem next_ctxDone (s : LoopState) (l : LoopLabel) (h : s.ctxDone = true) :
    (s.next l).ctxDone = true := by
  cases l <;> simp [LoopState.next, h]
  split <;> simp [h]

theorem next_returned (s : LoopState) (l : LoopLabel) (h : s.returned = true) :
    (s.next l).returned = true := by
  cases l <;> simp [LoopState.next, h]
  split <;> simp [h]

theorem run_cancel : ∀ (ls : List LoopLabel) (s s1 : LoopState),
    s.run ls = some s1 → s1.cancel = s.cancel
  | [], s, s1, h => by
    simp only [LoopState.run, Option.some.injEq] at h
    rw [← h]
  | l :: ls, s, s1, h => by
    simp only [LoopState.run] at h
    split at h
    · rw [run_cancel ls _ s1 h, next_cancel]
    · cases h

theorem run_ctxDone : ∀ (ls : List LoopLabel) (s s1 : LoopState),
    s.run ls = some s1 → s.ctxDone = true → s1.ctxDone = true
  | [], s, s1, h, hd => by
    simp only [LoopState.run, Option.some.injEq] at h
    rw [← h]; exact hd
  | l :: ls, s, s1, h, hd => by
    simp only [LoopState.run] at h
    split at h
    · exact run_ctxDone ls _ s1 h (next_ctxDone s l hd)
    · cases h

/-- After a `Stop()` with a cancel function set the context stays cancelled. -/
theorem run_stop_ctxDone : ∀ (ls : List LoopLabel) (s s1 : LoopState),
    s.run ls = some s1 → s.cancel = true → LoopLabel.stop ∈ ls → s1.ctxDone = true
  | [], s, s1, _, _, hm => by cases hm
  | l :: ls, s, s1, h, hc, hm => by
    simp only [LoopState.run] at h
    split at h
    · rcases List.mem_cons.mp hm with h1 | h1
      · subst h1
        refine run_ctxDone ls _ s1 h ?_
        simp [LoopState.next, hc]
      · exact run_stop_ctxDone ls _ s1 h (by rw [next_cancel]; exact hc) h1
    · cases h

/-- Once the loop has returned the only step left is a call of `Stop()`. -/
theorem run_returned : ∀ (ls : List LoopLabel) (s s1 : LoopState),
    s.run ls = some s1 → s.returned = true → ∀ l ∈ ls, l = LoopLabel.stop
  | [], s, s1, _, _, l, hl => by cases hl
  | x :: ls, s, s1, h, hr, l, hl => by
    simp only [LoopState.run] at h
    split at h
    · rename_i hen
      have hx : x = LoopLabel.stop := by
        cases x <;> simp [LoopState.enabled, hr] at hen ⊢
      rcases List.mem_cons.mp hl with h1 | h1
      · rw [h1]; exact hx
      · exact run_returned ls _ s1 h (next_returned s x hr) l h1
    · cases h

/-- The loop is never both inside `flushOnce` and returned. -/
theorem run_flushing_not_returned : ∀ (ls : List LoopLabel) (s s1 : LoopState),
    s.run ls = some s1 → (s.flushing = true → s.returned = false) →
    (s1.flushing = true → s1.returned = false)
  | [], s, s1, h, hi => by
    simp only [LoopState.run, Option.some.injEq] at h
    rw [← h]; exact hi
  | l :: ls, s, s1, h, hi => by
    simp only [LoopState.run] at h
    split at h
    · rename_i hen
      refine run_flushing_not_returned ls _ s1 h ?_
      cases l
      · simpa [LoopState.next] using hi
      · simp only [LoopState.next]
        split <;> simpa using hi
      · simp only [LoopState.enabled, Bool.and_eq_true, Bool.not_eq_true'] at hen
        simp [LoopState.next, hen.1.2]
      · simp only [LoopState.enabled, Bool.and_eq_true, Bool.not_eq_true'] at hen
        simp [LoopState.next, hen.1.1]
      · simp [LoopState.next]
    · cases h

theorem New_loop {σ : Type} (store : Option Store) (producer : Option (ProducerClient σ))
    (interval retries timeout : Int) (s0 : LoopState)
    (hl : (New store producer interval retries timeout).loop = some s0) :
    s0 = ⟨false, true, false, false, false⟩ := by
  unfold Forwarder.loop at hl
  split at hl
  · cases hl
  · simp only [Option.some.injEq] at hl
    rw [← hl]; rfl

end LoopLemmas

/-! ## The store -/

/-- C1: on an open store whose table satisfies its primary key, and when the
engine reports no error for the query, `FetchUnsent limit` returns the first
`L` rows with `sent=0` in id order, `L` being `limit` when positive and 50
otherwise: at most `L` messages, as many as there are pending rows up to `L`,
ids strictly ascending, each one a pending row, and no pending row with an id
below a returned one is missing. -/
theorem FetchUnsent_first_pending (db : DB) (hv : db.Valid) (limit : Int) (env : Faults)
    (hq : env.query = false) (hs : ∀ k, env.scan k = false) :
    ∃ msgs, Store.FetchUnsent (Store.of db) limit env = Except.ok msgs ∧
      msgs = (db.unsent.take (if limit > 0 then limit.toNat else 50)).map scanRow ∧
      msgs.length ≤ (if limit > 0 then limit.toNat else 50) ∧
      msgs.length = min (if limit > 0 then limit.toNat else 50)
        (db.messages.filter (fun r => decide (r.sent = 0))).length ∧
      (msgs.map Message.ID).Pairwise (fun a b => a < b) ∧
      (∀ m ∈ msgs, m.Sent = false ∧ ∃ r ∈ db.messages, r.sent = 0 ∧ scanRow r = m) ∧
      (∀ r ∈ db.messages, r.sent = 0 → ∀ m ∈ msgs, r.id < m.ID → scanRow r ∈ msgs) := by
  refine ⟨_, FetchUnsent_ok db limit env hq hs, rfl, ?_, ?_, ?_, ?_, ?_⟩
  · simp [fetchLimit]
  · simp only [fetchLimit, List.length_map, List.length_take]
    rw [DB.unsent, List.length_insertionSort]
  · rw [List.map_map]
    have h := (unsent_sorted_lt hv).sublist (List.take_sublist (fetchLimit limit) db.unsent)
    exact List.pairwise_map.mpr h
  · intro m hm
    obtain ⟨r, hr, rfl⟩ := List.mem_map.mp hm
    have hr2 := mem_unsent.mp (List.mem_of_mem_take hr)
    exact ⟨scanRow_sent_eq_false hr2.2, r, hr2.1, hr2.2, rfl⟩
  · intro r hr hsent m hm hlt
    obtain ⟨r1, hr1, rfl⟩ := List.mem_map.mp hm
    exact List.mem_map_of_mem _
      (take_closed_of_sorted hv _ (mem_unsent.mpr ⟨hr, hsent⟩) hr1 hlt)

/-- Witness of C1: three rows, the middle one already sent, fetched with a
non-positive limit. -/
theorem FetchUnsent_first_pending_witness :
    ∃ msgs, Store.FetchUnsent
        (Store.of ⟨[⟨2, [7], 10, 0⟩, ⟨1, [8], 10, 1⟩, ⟨3, [9], 11, 0⟩], 3⟩) 0 Faults.none
        = Except.ok msgs ∧ msgs = [⟨2, [7], 10, false⟩, ⟨3, [9], 11, false⟩] := by
  obtain ⟨msgs, h1, h2, -⟩ := FetchUnsent_first_pending
    ⟨[⟨2, [7], 10, 0⟩, ⟨1, [8], 10, 1⟩, ⟨3, [9], 11, 0⟩], 3⟩ (by decide) 0 Faults.none rfl
    (fun _ => rfl)
  exact ⟨msgs, h1, by rw [h2]; decide⟩

/-- Counterexample to C2 as stated: with one message already pending, the
message enqueued next is not among the result of `FetchUnsent 1`. -/
theorem Enqueue_then_FetchUnsent_counterexample :
    Store.Enqueue (Store.of ⟨[⟨1, [1], 0, 0⟩], 1⟩) [2] 5 Faults.none
        = (Except.ok 2, Store.of ⟨[⟨1, [1], 0, 0⟩, ⟨2, [2], 5, 0⟩], 2⟩) ∧
      Store.FetchUnsent (Store.of ⟨[⟨1, [1], 0, 0⟩, ⟨2, [2], 5, 0⟩], 2⟩) 1 Faults.none
        = Except.ok [⟨1, [1], 0, false⟩] ∧
      ∀ m ∈ [(⟨1, [1], 0, false⟩ : Message)], m.ID ≠ 2 := by
  refine ⟨rfl, rfl, ?_⟩
  decide

/-- C2, amended: when `Enqueue p` succeeds on an open store in which fewer than
`n` messages were pending, `n ≥ 1`, the `FetchUnsent n` that follows (the
engine reporting no error) returns a list that contains the message with the
id `Enqueue` returned, payload `p` and `Sent = false`. -/
theorem Enqueue_then_FetchUnsent (db : DB) (payload : Bytes) (now : Int) (env : Faults)
    (n : Int) (hn : 1 ≤ n) (env2 : Faults) (hq : env2.query = false)
    (hs : ∀ k, env2.scan k = false) (id : Int) (s1 : Option Store)
    (h : Store.Enqueue (Store.of db) payload now env = (Except.ok id, s1))
    (hp : db.countUnsent < n) :
    ∃ msgs, Store.FetchUnsent s1 n env2 = Except.ok msgs ∧
      ∃ m ∈ msgs, m.ID = id ∧ m.Payload = payload ∧ m.Sent = false := by
  obtain ⟨-, -, h3⟩ := Enqueue_inv h
  subst h3
  refine ⟨_, FetchUnsent_ok _ n env2 hq hs, ⟨id, payload, now, false⟩, ?_, rfl, rfl, rfl⟩
  have hmem : (⟨id, payload, now, 0⟩ : Row) ∈
      (DB.mk (db.messages ++ [⟨id, payload, now, 0⟩]) id).unsent :=
    mem_unsent.mpr ⟨List.mem_append_right _ (List.mem_singleton.mpr rfl), rfl⟩
  have hlen : (DB.mk (db.messages ++ [⟨id, payload, now, 0⟩]) id).unsent.length
      ≤ fetchLimit n := by
    unfold DB.unsent fetchLimit DB.countUnsent at *
    rw [List.length_insertionSort]
    have hpos : n > 0 := by omega
    simp only [hpos, if_true, List.filter_append, List.length_append]
    simp
    omega
  rw [List.take_of_length_le hlen]
  exact List.mem_map.mpr ⟨_, hmem, rfl⟩

/-- Witness of C2 (amended): enqueue on an empty table, then fetch with limit 1. -/
theorem Enqueue_then_FetchUnsent_witness :
    ∃ msgs, Store.FetchUnsent (Store.of ⟨[⟨1, [9], 7, 0⟩], 1⟩) 1 Faults.none = Except.ok msgs ∧
      ∃ m ∈ msgs, m.ID = 1 ∧ m.Payload = [9] ∧ m.Sent = false :=
  Enqueue_then_FetchUnsent ⟨[], 0⟩ [9] 7 Faults.none 1 (by decide) Faults.none rfl
    (fun _ => rfl) 1 (Store.of ⟨[⟨1, [9], 7, 0⟩], 1⟩) rfl (by decide)

/-- C3: when `ids` is made of ids of a `FetchUnsent` result and `MarkSent ids`
returns nil, the pending rows afterwards are exactly the rows pending before
whose id is not in `ids`; no listed id is returned by a `FetchUnsent` after any
further sequence of operations; every other pending row is still stored
unchanged. -/
theorem MarkSent_excludes_exactly (db : DB) (limit : Int) (env0 : Faults)
    (msgs : List Message)
    (hf : Store.FetchUnsent (Store.of db) limit env0 = Except.ok msgs)
    (ids : List Int) (hids : ∀ i ∈ ids, ∃ m ∈ msgs, m.ID = i)
    (env : Faults) (s1 : Option Store)
    (hm : Store.MarkSent (Store.of db) ids env = (Option.none, s1)) :
    ∃ db1, s1 = Store.of db1 ∧
      (∀ r, r ∈ db1.unsent ↔ r ∈ db.unsent ∧ r.id ∉ ids) ∧
      (∀ (ops : List Op) (limit2 : Int) (env2 : Faults) (msgs2 : List Message),
        Store.FetchUnsent (runOps s1 ops) limit2 env2 = Except.ok msgs2 →
        ∀ m ∈ msgs2, m.ID ∉ ids) ∧
      (∀ r ∈ db.messages, r.sent = 0 → r.id ∉ ids → r ∈ db1.messages ∧ r ∈ db1.unsent) := by
  have hs1 : s1 = Store.of (db.markAll ids) := by
    rcases MarkSent_cases db ids env with h1 | h1
    · rw [hm] at h1; exact absurd rfl h1.1
    · rw [hm] at h1
      simp only [Prod.mk.injEq, true_and] at h1
      exact h1
  subst hs1
  refine ⟨db.markAll ids, rfl, fun r => mem_unsent_markAll, ?_, ?_⟩
  · intro ops limit2 env2 msgs2 hf2 m hm2 hmem
    have hmsgs := FetchUnsent_inv hf
    obtain ⟨m0, hm0, hid⟩ := hids m.ID hmem
    rw [hmsgs] at hm0
    obtain ⟨r0, hr0, rfl⟩ := List.mem_map.mp hm0
    have hr0m : r0 ∈ db.messages := (mem_unsent.mp (List.mem_of_mem_take hr0)).1
    have hack : (db.markAll ids).Acked m.ID := by
      constructor
      · have : m.ID ∈ (db.markAll ids).messages.map Row.id := by
          rw [markAll_ids]; exact List.mem_map.mpr ⟨r0, hr0m, hid⟩
        obtain ⟨r1, h1, h2⟩ := List.mem_map.mp this
        exact ⟨r1, h1, h2⟩
      · intro r1 h1 hi1
        obtain ⟨r2, -, rfl⟩ := mem_markAll.mp h1
        by_cases hin : r2.id ∈ ids
        · simp [hin]
        · simp only [hin, if_false] at hi1
          rw [hi1] at hin
          exact absurd hmem hin
    obtain ⟨db2, hrun, hack2⟩ := Acked_runOps ops _ _ hack
    rw [hrun] at hf2
    have hmsgs2 := FetchUnsent_inv hf2
    rw [hmsgs2] at hm2
    obtain ⟨r3, hr3, rfl⟩ := List.mem_map.mp hm2
    have h3 := mem_unsent.mp (List.mem_of_mem_take hr3)
    exact hack2.2 r3 h3.1 rfl h3.2
  · intro r hr hsent hn
    have hu : r ∈ (db.markAll ids).unsent :=
      mem_unsent_markAll.mpr ⟨mem_unsent.mpr ⟨hr, hsent⟩, hn⟩
    exact ⟨(mem_unsent.mp hu).1, hu⟩

/-- Witness of C3: of three pending rows the first two are fetched and marked;
only the third is pending afterwards. -/
theorem MarkSent_excludes_exactly_witness :
    ∃ db1, Store.of ⟨[⟨1, [1], 0, 1⟩, ⟨2, [2], 0, 1⟩, ⟨3, [3], 0, 0⟩], 3⟩ = Store.of db1 ∧
      (∀ r, r ∈ db1.unsent ↔
        r ∈ (DB.mk [⟨1, [1], 0, 0⟩, ⟨2, [2], 0, 0⟩, ⟨3, [3], 0, 0⟩] 3).unsent ∧ r.id ∉ [1, 2]) ∧
      (∀ (ops : List Op) (limit2 : Int) (env2 : Faults) (msgs2 : List Message),
        Store.FetchUnsent
          (runOps (Store.of ⟨[⟨1, [1], 0, 1⟩, ⟨2, [2], 0, 1⟩, ⟨3, [3], 0, 0⟩], 3⟩) ops)
          limit2 env2 = Except.ok msgs2 →
        ∀ m ∈ msgs2, m.ID ∉ [1, 2]) ∧
      (∀ r ∈ (DB.mk [⟨1, [1], 0, 0⟩, ⟨2, [2], 0, 0⟩, ⟨3, [3], 0, 0⟩] 3).messages,
        r.sent = 0 → r.id ∉ [1, 2] → r ∈ db1.messages ∧ r ∈ db1.unsent) :=
  MarkSent_excludes_exactly ⟨[⟨1, [1], 0, 0⟩, ⟨2, [2], 0, 0⟩, ⟨3, [3], 0, 0⟩], 3⟩ 2 Faults.none
    [⟨1, [1], 0, false⟩, ⟨2, [2], 0, false⟩] rfl [1, 2] (by decide) Faults.none
    (Store.of ⟨[⟨1, [1], 0, 1⟩, ⟨2, [2], 0, 1⟩, ⟨3, [3], 0, 0⟩], 3⟩) rfl

/-- C7: in every store reachable from a freshly created one, the stored ids
are pairwise distinct, and an `Enqueue` that succeeds returns a non-zero id
larger than every id stored before the call, sent rows included; the store it
leaves is reachable again. -/
theorem ids_unique_and_increasing (s : Option Store) (hr : Reachable s) :
    ∃ db, s = Store.of db ∧ (db.messages.map Row.id).Nodup ∧
      ∀ (payload : Bytes) (now : Int) (env : Faults) (id : Int) (s1 : Option Store),
        Store.Enqueue s payload now env = (Except.ok id, s1) →
        id ≠ 0 ∧ (∀ r ∈ db.messages, r.id < id) ∧ Reachable s1 := by
  obtain ⟨db, rfl, hv, hseq⟩ := Reachable_inv hr
  refine ⟨db, rfl, hv, ?_⟩
  intro payload now env id s1 he
  obtain ⟨h1, -, -⟩ := Enqueue_inv he
  refine ⟨?_, ?_, ?_⟩
  · have := seq_lt_nextRowid db
    omega
  · intro r hr1
    rw [h1]; exact lt_nextRowid hr1
  · have := Reachable.step (Store.of db) (Op.enqueue payload now env) hr
    simp only [Op.apply, he] at this
    exact this

/-- Witness of C7: a fresh store after one `Enqueue` and a `MarkSent` of the
row; the next `Enqueue` succeeds and returns id 2, above the sent row 1. -/
theorem ids_unique_and_increasing_witness :
    Store.Enqueue (Store.of ⟨[⟨1, [5], 0, 1⟩], 1⟩) [6] 1 Faults.none
        = (Except.ok 2, Store.of ⟨[⟨1, [5], 0, 1⟩, ⟨2, [6], 1, 0⟩], 2⟩) ∧
      (2 : Int) ≠ 0 ∧ (∀ r ∈ [(⟨1, [5], 0, 1⟩ : Row)], r.id < 2) ∧
      Reachable (Store.of ⟨[⟨1, [5], 0, 1⟩, ⟨2, [6], 1, 0⟩], 2⟩) := by
  obtain ⟨db, hdb, -, h⟩ := ids_unique_and_increasing (Store.of ⟨[⟨1, [5], 0, 1⟩], 1⟩)
    (Reachable.step _ (Op.markSent [1] Faults.none)
      (Reachable.step _ (Op.enqueue [5] 0 Faults.none)
        (Reachable.fresh "buffer.db" "." Faults.none ⟨some ⟨[], 0⟩⟩ rfl)))
  have h2 := h [6] 1 Faults.none 2 (Store.of ⟨[⟨1, [5], 0, 1⟩, ⟨2, [6], 1, 0⟩], 2⟩) rfl
  have hd := Store.of_inj hdb
  subst hd
  exact ⟨rfl, h2.1, h2.2.1, h2.2.2⟩

/-- C8: `MarkSent` is atomic.  Whenever it returns an error the store is the
one before the call, and when it returns nil every listed id is marked; on an
open store it does return an error when the transaction cannot begin, when the
update of some listed id fails, or when the commit fails; and with an empty
list it returns nil and changes nothing. -/
theorem MarkSent_atomic (s : Option Store) (ids : List Int) (env : Faults) :
    ((Store.MarkSent s ids env).1 ≠ Option.none → (Store.MarkSent s ids env).2 = s) ∧
    (∀ db, s = Store.of db → (Store.MarkSent s ids env).1 = Option.none →
      (Store.MarkSent s ids env).2 = Store.of (db.markAll ids)) ∧
    (∀ db, s = Store.of db → ids ≠ [] →
      (env.beginTx = true ∨ (∃ j, j < ids.length ∧ env.exec j = true) ∨ env.commit = true) →
      (Store.MarkSent s ids env).1 ≠ Option.none) ∧
    (∀ db, Store.MarkSent (Store.of db) [] env = (Option.none, Store.of db)) := by
  refine ⟨?_, ?_, ?_, ?_⟩
  · intro herr
    by_cases hs : ∃ db, s = Store.of db
    · obtain ⟨db, rfl⟩ := hs
      rcases MarkSent_cases db ids env with h1 | h1
      · exact h1.2
      · rw [h1] at herr; exact absurd rfl herr
    · rw [MarkSent_uninitialized s ids env (fun db h => hs ⟨db, h⟩)]
  · rintro db rfl hnone
    rcases MarkSent_cases db ids env with h1 | h1
    · exact absurd hnone h1.1
    · rw [h1]
  · rintro db rfl hne hfault
    have h0 : ¬ ids.length = 0 := fun h => hne (List.length_eq_zero.mp h)
    unfold Store.MarkSent Store.of DB.Begin Tx.Rollback Tx.Commit
    simp only [h0, if_false]
    by_cases hb : env.beginTx = true
    · simp [hb]
    · simp only [hb]
      by_cases hp : env.prepare = true
      · simp [hp]
      · simp only [hp]
        cases he : execAll env 0 ids db with
        | error e => simp [he]
        | ok w =>
          rcases hfault with h | ⟨j, hj, hx⟩ | h
          · exact absurd h hb
          · obtain ⟨e, hee⟩ := execAll_fails env ids 0 j db hj (by simpa using hx)
            rw [he] at hee; cases hee
          · simp [he, h]
  · intro db
    rfl

/-- Witness of C8: the update of the second of two ids fails; `MarkSent`
returns an error and neither row is marked. -/
theorem MarkSent_atomic_witness :
    Store.MarkSent (Store.of ⟨[⟨1, [1], 0, 0⟩, ⟨2, [2], 0, 0⟩], 2⟩) [1, 2]
        ⟨false, false, false, fun k => decide (k = 1), false, fun _ => false, false, false⟩
      = (some Err.engine, Store.of ⟨[⟨1, [1], 0, 0⟩, ⟨2, [2], 0, 0⟩], 2⟩) ∧
    (Store.MarkSent (Store.of ⟨[⟨1, [1], 0, 0⟩, ⟨2, [2], 0, 0⟩], 2⟩) [1, 2]
        ⟨false, false, false, fun k => decide (k = 1), false, fun _ => false, false, false⟩).2
      = Store.of ⟨[⟨1, [1], 0, 0⟩, ⟨2, [2], 0, 0⟩], 2⟩ :=
  ⟨rfl, (MarkSent_atomic (Store.of ⟨[⟨1, [1], 0, 0⟩, ⟨2, [2], 0, 0⟩], 2⟩) [1, 2]
    ⟨false, false, false, fun k => decide (k = 1), false, fun _ => false, false, false⟩).1
    (by decide)⟩

/-- C9: a pending row stays pending until it is acknowledged.  After any one
operation other than a successful `MarkSent` that lists its id, the row is
still stored with the same id, payload, time and `sent = 0`, and is still among
the unsent rows. -/
theorem pending_until_acked (db : DB) (r : Row) (hr : r ∈ db.messages) (hs : r.sent = 0)
    (op : Op) (hna : ¬ op.acks (Store.of db) r.id) :
    ∃ db1, op.apply (Store.of db) = Store.of db1 ∧ r ∈ db1.messages ∧ r ∈ db1.unsent := by
  have key : ∃ db1, op.apply (Store.of db) = Store.of db1 ∧ r ∈ db1.messages := by
    cases op with
    | enqueue payload now env =>
      rcases Enqueue_store db payload now env with h1 | h1
      · exact ⟨db, h1, hr⟩
      · exact ⟨_, h1, List.mem_append_left _ hr⟩
    | fetchUnsent limit env => exact ⟨db, rfl, hr⟩
    | countUnsent env => exact ⟨db, rfl, hr⟩
    | markSent ids env =>
      rcases MarkSent_cases db ids env with h1 | h1
      · exact ⟨db, h1.2, hr⟩
      · have hn : r.id ∉ ids := fun hin => hna ⟨by rw [h1], hin⟩
        refine ⟨db.markAll ids, by simp [Op.apply, h1], ?_⟩
        exact mem_markAll.mpr ⟨r, hr, by simp [hn]⟩
  obtain ⟨db1, h1, h2⟩ := key
  exact ⟨db1, h1, h2, mem_unsent.mpr ⟨h2, hs⟩⟩

/-- Witness of C9: a `MarkSent` of id 1 leaves the pending row 2 as it was. -/
theorem pending_until_acked_witness :
    ∃ db1, (Op.markSent [1] Faults.none).apply
        (Store.of ⟨[⟨1, [1], 0, 0⟩, ⟨2, [2], 0, 0⟩], 2⟩) = Store.of db1 ∧
      (⟨2, [2], 0, 0⟩ : Row) ∈ db1.messages ∧ (⟨2, [2], 0, 0⟩ : Row) ∈ db1.unsent :=
  pending_until_acked ⟨[⟨1, [1], 0, 0⟩, ⟨2, [2], 0, 0⟩], 2⟩ ⟨2, [2], 0, 0⟩ (by decide) rfl
    (Op.markSent [1] Faults.none) (by simp [Op.acks])

/-! ## The forwarder -/

/-- C4: the stop rule of `flushOnce`.  Let the fetched batch be
`pre ++ mj :: post`, let every message of `pre` be delivered and let
`sendWithRetry` give up on `mj`, leaving the world `w2`.  Then the flush
returns, exactly the messages of `pre` are marked sent, `mj` and the messages
of `post` are still pending, and the producer is in the state in which the
last attempt for `mj` left it, with no call of `Produce` made after it. -/
theorem flushOnce_stops_at_first_failure {σ : Type} (db : DB) (hv : db.Valid)
    (p : ProducerClient σ) (interval retries timeout : Int) (ovf : Int → Int) (fuel : Nat)
    (w w1 w2 : World σ) (pre : List Message) (mj : Message) (post : List Message)
    (hbatch : Store.FetchUnsent (Store.of db) 100 Faults.none = Except.ok (pre ++ mj :: post))
    (hpre : (New (Store.of db) (some p) interval retries timeout).sendBatch ovf fuel pre []
      (w.log (Event.fetchUnsent 100)) = (Outcome.done (pre.map Message.ID), w1))
    (hfail : (New (Store.of db) (some p) interval retries timeout).sendWithRetry ovf fuel
      mj.Payload w1 = (Outcome.done false, w2)) :
    ∃ f1 w3, (New (Store.of db) (some p) interval retries timeout).FlushOnce
        Faults.none ovf fuel w = (Outcome.done (), f1, w3) ∧
      f1.store = Store.of (db.markAll (pre.map Message.ID)) ∧
      (∀ r, r ∈ (db.markAll (pre.map Message.ID)).unsent ↔
        r ∈ db.unsent ∧ r.id ∉ pre.map Message.ID) ∧
      (∀ m ∈ pre, ∀ r ∈ (db.markAll (pre.map Message.ID)).unsent, r.id ≠ m.ID) ∧
      (∀ m ∈ mj :: post, ∃ r ∈ (db.markAll (pre.map Message.ID)).unsent, scanRow r = m) ∧
      w3.sink = w2.sink ∧
      w3.trace.filter Event.isProduce = w2.trace.filter Event.isProduce := by
  have hm := FetchUnsent_inv hbatch
  have hne : db.unsent.take 100 ≠ [] := by
    intro h
    have h2 : fetchLimit 100 = 100 := rfl
    rw [h2, h] at hm
    simp at hm
  have hall : (New (Store.of db) (some p) interval retries timeout).sendBatch ovf fuel
      (pre ++ mj :: post) [] (w.log (Event.fetchUnsent 100))
      = (Outcome.done (pre.map Message.ID), w2) := by
    have h1 := sendBatch_append _ ovf fuel pre [] _ w1 (by simpa using hpre) (mj :: post)
    rw [h1]
    simpa using sendBatch_fail _ ovf fuel mj post (pre.map Message.ID) w1 w2 hfail
  have hfl := flushOnce_of_sendBatch (New (Store.of db) (some p) interval retries timeout)
    db p rfl rfl ovf fuel w w2 (pre.map Message.ID) hne (by
      have h2 : fetchLimit 100 = 100 := rfl
      rw [h2] at hm
      rw [← hm]; exact hall)
  have hpend : ∀ r, r ∈ (db.markAll (pre.map Message.ID)).unsent ↔
      r ∈ db.unsent ∧ r.id ∉ pre.map Message.ID := fun r => mem_unsent_markAll
  have hids : ((pre ++ mj :: post).map Message.ID).Nodup := by
    rw [hm, List.map_map]
    have h := (unsent_sorted_lt hv).sublist (List.take_sublist (fetchLimit 100) db.unsent)
    have h2 : (List.map (Message.ID ∘ scanRow) (List.take (fetchLimit 100) db.unsent)).Pairwise
        (fun a b => a < b) := List.pairwise_map.mpr h
    exact h2.imp (fun h => ne_of_lt h)
  have hstore : ∃ f1 w3, (New (Store.of db) (some p) interval retries timeout).FlushOnce
      Faults.none ovf fuel w = (Outcome.done (), f1, w3) ∧
      f1.store = Store.of (db.markAll (pre.map Message.ID)) ∧ w3.sink = w2.sink ∧
      w3.trace.filter Event.isProduce = w2.trace.filter Event.isProduce := by
    unfold Forwarder.FlushOnce
    rw [hfl]
    by_cases hlen : (pre.map Message.ID).length > 0
    · simp only [hlen, if_true]
      exact ⟨_, _, rfl, rfl, rfl, by simp [World.log, List.filter_append, Event.isProduce]⟩
    · simp only [hlen, if_false]
      have hnil : pre.map Message.ID = [] := List.length_eq_zero.mp (by omega)
      exact ⟨_, _, rfl, by rw [hnil, markAll_nil]; rfl, rfl, rfl⟩
  obtain ⟨f1, w3, h1, h2, h3, h4⟩ := hstore
  refine ⟨f1, w3, h1, h2, hpend, ?_, ?_, h3, h4⟩
  · intro m hmem r hr heq
    exact ((hpend r).mp hr).2 (heq ▸ List.mem_map_of_mem _ hmem)
  · intro m hmem
    have hin : m ∈ (db.unsent.take (fetchLimit 100)).map scanRow := by
      rw [← hm]; exact List.mem_append_right _ hmem
    obtain ⟨r, hr, rfl⟩ := List.mem_map.mp hin
    refine ⟨r, (hpend r).mpr ⟨List.mem_of_mem_take hr, ?_⟩, rfl⟩
    intro hc
    rw [List.map_append, List.nodup_append] at hids
    exact hids.2.2 hc (List.mem_map_of_mem Message.ID hmem)

/-- Witness of C4: messages A, B, C are pending and the producer fails for B
only.  After one flush with one retry A is marked sent, B and C are not, and
the producer has been called three times: once for A, twice for B, never for
C. -/
theorem flushOnce_stops_at_first_failure_witness :
    ∃ f1 w3, (New (Store.of ⟨[⟨1, [65], 0, 0⟩, ⟨2, [66], 0, 0⟩, ⟨3, [67], 0, 0⟩], 3⟩)
        (some (failOn [66])) 1000 1 1000).FlushOnce Faults.none (fun _ => 0) 3 ⟨0, []⟩
        = (Outcome.done (), f1, w3) ∧
      f1.store = Store.of ⟨[⟨1, [65], 0, 1⟩, ⟨2, [66], 0, 0⟩, ⟨3, [67], 0, 0⟩], 3⟩ ∧
      w3.sink = 3 ∧
      w3.trace.filter Event.isProduce =
        [Event.produce [65] 1000 true, Event.produce [66] 1000 false,
          Event.produce [66] 1000 false] := by
  obtain ⟨f1, w3, h1, h2, -, -, -, h3, h4⟩ :=
    flushOnce_stops_at_first_failure
      ⟨[⟨1, [65], 0, 0⟩, ⟨2, [66], 0, 0⟩, ⟨3, [67], 0, 0⟩], 3⟩ (by decide)
      (failOn [66]) 1000 1 1000 (fun _ => 0) 3 ⟨0, []⟩
      ⟨1, [Event.fetchUnsent 100, Event.produce [65] 1000 true]⟩
      ⟨3, [Event.fetchUnsent 100, Event.produce [65] 1000 true, Event.produce [66] 1000 false,
        Event.sleep 500000000, Event.produce [66] 1000 false]⟩
      [⟨1, [65], 0, false⟩] ⟨2, [66], 0, false⟩ [⟨3, [67], 0, false⟩] rfl rfl rfl
  exact ⟨f1, w3, h1, h2, h3, h4⟩

/-- The bound on the retry count in the theorem above is the room the loop
counter needs.  At `retries = 2^63 - 1`, the largest `int`, the test
`attempt <= f.retries` is always true and the counter wraps: a producer that
fails its first `2^63` calls is called `2^63 + 1` times, and with a producer
that always fails `sendWithRetry` is still running after any number of
iterations. -/
theorem sendWithRetry_counter_wraps :
    (∃ f1 tr1, (New (Store.of ⟨[⟨1, [7], 0, 0⟩], 1⟩) (some (failFirst (2 ^ 63))) 1000
        (2 ^ 63 - 1) 1000).FlushOnce Faults.none (fun _ => 0) (2 ^ 63 + 1) ⟨0, []⟩
        = (Outcome.done (), f1, ⟨2 ^ 63 + 1, tr1⟩) ∧
      f1.store = Store.of ⟨[⟨1, [7], 0, 1⟩], 1⟩) ∧
    (∀ fuel : Nat, ((New (Store.of ⟨[⟨1, [7], 0, 0⟩], 1⟩) (some (failOn [7])) 1000
        (2 ^ 63 - 1) 1000).sendWithRetry (fun _ => 0) fuel [7] ⟨0, []⟩).1 = Outcome.running) := by
  have hr : ∀ (τ : Type) (p : Option (ProducerClient τ)) (s : Option Store),
      (New s p 1000 (2 ^ 63 - 1) 1000).retries = maxInt64 := by
    intro τ p s
    rw [New_retries _ _ _ _ _ (by norm_num)]; rfl
  constructor
  · obtain ⟨tr1, h1⟩ := failFirst_wraps (2 ^ 63)
      (New (Store.of ⟨[⟨1, [7], 0, 0⟩], 1⟩) (some (failFirst (2 ^ 63))) 1000
        (2 ^ 63 - 1) 1000).timeout (fun _ => 0) [7] (2 ^ 63) (2 ^ 63 + 1)
      0 0 ([] ++ [Event.fetchUnsent 100]) (le_refl _) (by norm_num) (by omega) (by omega)
    have hw0 : wrapInt64 0 = 0 := by unfold wrapInt64; norm_num
    rw [hw0] at h1
    have hsend : (New (Store.of ⟨[⟨1, [7], 0, 0⟩], 1⟩) (some (failFirst (2 ^ 63))) 1000
        (2 ^ 63 - 1) 1000).sendWithRetry (fun _ => 0) (2 ^ 63 + 1) [7]
        (World.log ⟨0, []⟩ (Event.fetchUnsent 100))
        = (Outcome.done true, ⟨2 ^ 63 + 1, tr1⟩) := by
      rw [sendWithRetry_eq _ (failFirst (2 ^ 63)) rfl, hr]
      exact h1
    have h2 := flushOnce_single
      (New (Store.of ⟨[⟨1, [7], 0, 0⟩], 1⟩) (some (failFirst (2 ^ 63))) 1000 (2 ^ 63 - 1) 1000)
      ⟨[⟨1, [7], 0, 0⟩], 1⟩ (failFirst (2 ^ 63)) rfl rfl (fun _ => 0) (2 ^ 63 + 1) ⟨0, []⟩
      ⟨2 ^ 63 + 1, tr1⟩ ⟨1, [7], 0, 0⟩ (by decide) true hsend
    exact ⟨_, _, h2, by decide⟩
  · intro fuel
    rw [sendWithRetry_eq _ (failOn [7]) rfl, hr]
    exact sendLoop_never_returns (failOn [7]) _ (fun _ => 0) [7] (fun _ => by simp [failOn])
      fuel 0 _ (by unfold maxInt64; norm_num)

/-- C6: with a producer whose `Produce` always returns nil, one flush on an
open store (the engine reporting no error) returns after this sequence of
events: the fetch, one call of `Produce` for each of the first `min P 100`
pending rows, in ascending id order and with the payload of the row, then one
`MarkSent` with exactly their ids (none when nothing is pending).  Those rows
are marked sent, and when `P ≤ 100` a following `FetchUnsent` returns no
message. -/
theorem flushOnce_all_delivered {σ : Type} (db : DB) (hv : db.Valid) (p : ProducerClient σ)
    (hok : ∀ st pl t, (p.Produce st pl t).1 = Option.none)
    (interval retries timeout : Int) (ovf : Int → Int) (fuel : Nat) (hfuel : 0 < fuel)
    (w : World σ) :
    ∃ f1 w1, (New (Store.of db) (some p) interval retries timeout).FlushOnce
        Faults.none ovf fuel w = (Outcome.done (), f1, w1) ∧
      (db.unsent.take 100).length
        = min (db.messages.filter (fun r => decide (r.sent = 0))).length 100 ∧
      ((db.unsent.take 100).map Row.id).Pairwise (fun a b => a < b) ∧
      w1.trace = w.trace ++ [Event.fetchUnsent 100]
        ++ (db.unsent.take 100).map (fun r => Event.produce r.payload
            (New (Store.of db) (some p) interval retries timeout).timeout true)
        ++ (if db.unsent.take 100 = [] then []
            else [Event.markSent ((db.unsent.take 100).map Row.id) Option.none]) ∧
      f1.store = Store.of (db.markAll ((db.unsent.take 100).map Row.id)) ∧
      ((db.messages.filter (fun r => decide (r.sent = 0))).length ≤ 100 →
        ∀ limit, Store.FetchUnsent f1.store limit Faults.none = Except.ok []) := by
  have hlen : db.unsent.length = (db.messages.filter (fun r => decide (r.sent = 0))).length := by
    rw [DB.unsent, List.length_insertionSort]
  have hsorted : ((db.unsent.take 100).map Row.id).Pairwise (fun a b => a < b) :=
    List.pairwise_map.mpr ((unsent_sorted_lt hv).sublist (List.take_sublist 100 db.unsent))
  have hfetch : ∀ f1 : Forwarder σ,
      f1.store = Store.of (db.markAll ((db.unsent.take 100).map Row.id)) →
      (db.messages.filter (fun r => decide (r.sent = 0))).length ≤ 100 →
      ∀ limit, Store.FetchUnsent f1.store limit Faults.none = Except.ok [] := by
    intro f1 hst hP limit
    rw [hst, FetchUnsent_ok _ limit Faults.none rfl (fun _ => rfl),
      unsent_markAll_all (by omega)]
    simp
  by_cases hnil : db.unsent.take 100 = []
  · refine ⟨_, _, flushOnce_empty _ db p rfl rfl ovf fuel w hnil, ?_, hsorted, ?_, ?_,
      hfetch _ ?_⟩
    · rw [List.length_take, hlen, Nat.min_comm]
    · simp [hnil, World.log]
    · rw [hnil]; simp [markAll_nil]; rfl
    · rw [hnil]; simp [markAll_nil]; rfl
  · obtain ⟨st, hb⟩ := sendBatch_all_ok
      (New (Store.of db) (some p) interval retries timeout) p rfl
      (New_retries_nonneg _ _ _ _ _) ovf fuel hfuel hok ((db.unsent.take 100).map scanRow) []
      (w.log (Event.fetchUnsent 100))
    have hids : (List.map Message.ID (List.map scanRow (List.take 100 db.unsent)))
        = (db.unsent.take 100).map Row.id := by
      rw [List.map_map]; rfl
    rw [List.nil_append, hids] at hb
    have hfl := flushOnce_of_sendBatch (New (Store.of db) (some p) interval retries timeout)
      db p rfl rfl ovf fuel w _ _ hnil hb
    have hpos : ((db.unsent.take 100).map Row.id).length > 0 := by
      rw [List.length_map]
      exact List.length_pos.mpr hnil
    simp only [hpos, if_true] at hfl
    refine ⟨_, _, hfl, ?_, hsorted, ?_, rfl, hfetch _ rfl⟩
    · rw [List.length_take, hlen, Nat.min_comm]
    · simp only [hnil, if_false, World.log, List.map_map, List.append_assoc]
      rfl

/-- Witness of C6: the two messages of `TestForwarderFlushOnceSuccess` and a
producer that never fails; both are sent and nothing is left to fetch. -/
theorem flushOnce_all_delivered_witness :
    ∃ f1 w1, (New (Store.of ⟨[⟨1, [109, 49], 0, 0⟩, ⟨2, [109, 50], 0, 0⟩], 2⟩)
        (some (failFirst 0)) 1000000000 1 1000000000).FlushOnce Faults.none (fun _ => 0) 1
        ⟨0, []⟩ = (Outcome.done (), f1, w1) ∧
      w1.trace = [Event.fetchUnsent 100, Event.produce [109, 49] 1000000000 true,
        Event.produce [109, 50] 1000000000 true, Event.markSent [1, 2] Option.none] ∧
      Store.FetchUnsent f1.store 10 Faults.none = Except.ok [] := by
  obtain ⟨f1, w1, h1, -, -, h2, -, h3⟩ :=
    flushOnce_all_delivered ⟨[⟨1, [109, 49], 0, 0⟩, ⟨2, [109, 50], 0, 0⟩], 2⟩ (by decide)
      (failFirst 0) (fun _ _ _ => rfl) 1000000000 1 1000000000 (fun _ => 0) 1 (by decide)
      ⟨0, []⟩
  exact ⟨f1, w1, h1, h2, h3 (by decide) 10⟩

/-- C10: `New` keeps a retry count that is not negative and replaces a
negative one by 3; a retry count of 0 is kept and `sendWithRetry` then makes
exactly one call of `Produce`.  `New` keeps a positive timeout and replaces any
other by 5 seconds, and keeps the interval; and every call of `Produce` that a
flush makes, whatever the environment and however long it runs, is passed that
timeout. -/
theorem New_defaults {σ : Type} (store : Option Store) (producer : Option (ProducerClient σ))
    (interval retries timeout : Int) :
    (New store producer interval retries timeout).retries
        = (if retries < 0 then 3 else retries) ∧
      (New store producer interval 0 timeout).retries = 0 ∧
      (∀ (p : ProducerClient σ) (ovf : Int → Int) (fuel : Nat) (payload : Bytes) (w : World σ),
        ∃ b w1 evs, (New store (some p) interval 0 timeout).sendWithRetry ovf (fuel + 2) payload w
            = (Outcome.done b, w1) ∧
          w1.trace = w.trace ++ evs ∧ (evs.filter Event.isProduce).length = 1) ∧
      (New store producer interval retries timeout).timeout
        = (if timeout ≤ 0 then 5000000000 else timeout) ∧
      (New store producer interval retries timeout).interval = interval ∧
      ∀ (env : Faults) (ovf : Int → Int) (fuel : Nat) (w : World σ),
        ∃ evs, ((New store producer interval retries timeout).FlushOnce env ovf fuel w).2.2.trace
            = w.trace ++ evs ∧
          ∀ pl t ok, Event.produce pl t ok ∈ evs →
            t = (if timeout ≤ 0 then 5000000000 else timeout) := by
  refine ⟨rfl, rfl, ?_, rfl, rfl, ?_⟩
  · intro p ovf fuel payload w
    obtain ⟨b, w1, evs, h1, h2, h3, h4, h5⟩ :=
      sendLoop_returns p 0 (New store (some p) interval 0 timeout).timeout ovf payload
        (by unfold maxInt64; norm_num) 1 (fuel + 2) 0 w (le_refl _) (by norm_num) (by omega)
    refine ⟨b, w1, evs, ?_, h2, ?_⟩
    · rw [sendWithRetry_eq _ p rfl]
      exact h1
    · cases b with
      | false => exact h5 rfl
      | true =>
        obtain ⟨e, he, hok⟩ := h4.mp rfl
        have hp : e.isProduce = true := by
          cases e <;> simp_all [Event.isProduce, Event.isProduceOk]
        have hmem : e ∈ evs.filter Event.isProduce := List.mem_filter.mpr ⟨he, hp⟩
        have := List.length_pos_of_mem hmem
        omega
  · intro env ovf fuel w
    exact flushOnce_trace (New store producer interval retries timeout) env ovf fuel w

/-- The delays `sendWithRetry` does sleep.  Against any producer, as long as
the loop counter does not wrap, the trace of `sendWithRetry` is the first call of `Produce` with no sleep
before it, followed for each retry `k = 1, 2, ...` (at most `retries` of them)
by a sleep of `backoff k` and the call of `Produce`.  For `1 ≤ k ≤ 35` the
delay `backoff k` is exactly `500 ms * 2^(k-1)` in nanoseconds (500 ms, 1 s,
2 s, ...); for `k ≤ 63` it is that product wrapped to a signed 64-bit value. -/
theorem backoff_before_retry {σ : Type} (store : Option Store) (p : ProducerClient σ)
    (interval retries timeout : Int) (ovf : Int → Int) (fuel : Nat)
    (hwrap : retries < maxInt64 ∨ (fuel : Int) + 1 ≤ maxInt64) (payload : Bytes)
    (w : World σ) :
    (∃ ok0 oks, ((New store (some p) interval retries timeout).sendWithRetry ovf (fuel + 1)
          payload w).2.trace
        = w.trace ++ Event.produce payload
            (New store (some p) interval retries timeout).timeout ok0 ::
          retryEvents (backoff ovf) payload
            (New store (some p) interval retries timeout).timeout 1 oks ∧
        (oks.length : Int) ≤ (New store (some p) interval retries timeout).retries) ∧
    (∀ k : Int, 1 ≤ k → k ≤ 35 → backoff ovf k = 500 * millisecond * 2 ^ (k - 1).toNat) ∧
    (∀ k : Int, 1 ≤ k → k ≤ 63 →
      backoff ovf k = wrapInt64 (500 * millisecond * 2 ^ (k - 1).toNat)) ∧
    backoff ovf 1 = 500 * millisecond ∧ backoff ovf 2 = second ∧
    backoff ovf 3 = 2 * second := by
  refine ⟨?_, fun k => backoff_exact ovf k, fun k => backoff_wrapped ovf k, ?_, ?_, ?_⟩
  · rw [sendWithRetry_eq _ p rfl]
    have h0 := New_retries_nonneg store (some p) interval retries timeout
    have hmax : (New store (some p) interval retries timeout).retries < maxInt64 ∨
        (1 : Int) + fuel ≤ maxInt64 := by
      rcases hwrap with h | h
      · left
        unfold New
        simp only
        split
        · unfold maxInt64; norm_num
        · exact h
      · right; omega
    generalize (New store (some p) interval retries timeout).retries = r at h0 hmax
    generalize (New store (some p) interval retries timeout).timeout = t
    have hsl : sleepBefore ovf 0 w = w := by simp [sleepBefore]
    by_cases hok : (p.Produce (sleepBefore ovf 0 w).sink payload t).1 = Option.none
    · rw [sendLoop_succ_ok p r t ovf payload fuel 0 w h0 hok, hsl]
      exact ⟨true, [], by simp [retryEvents], by simpa using h0⟩
    · rw [sendLoop_succ_err p r t ovf payload fuel 0 w h0 hok, hsl]
      have hw : wrapInt64 (0 + 1) = 1 := by unfold wrapInt64; norm_num
      rw [hw]
      obtain ⟨oks, h1, h2⟩ := sendLoop_retryEvents p r t ovf payload fuel 1
        ⟨(p.Produce w.sink payload t).2, w.trace ++ [Event.produce payload t false]⟩
        (le_refl _) hmax
      refine ⟨false, oks, by rw [h1]; simp, ?_⟩
      have h3 : max 1 (r + 1) = r + 1 := max_eq_right (by omega)
      rw [h3] at h2
      omega
  · rw [backoff_exact ovf 1 (by norm_num) (by norm_num)]; norm_num
  · rw [backoff_exact ovf 2 (by norm_num) (by norm_num)]; unfold second millisecond; norm_num
  · rw [backoff_exact ovf 3 (by norm_num) (by norm_num)]
    have : (3 - 1 : Int).toNat = 2 := rfl
    rw [this]; unfold second millisecond; norm_num

/-- An instance of the theorem above: two retries against a producer that fails three
times; the sleeps are 500 ms before the first retry and 1 s before the second,
and none before the first attempt. -/
theorem backoff_before_retry_example :
    ((New Option.none (some (failFirst 3)) 1000 2 1000).sendWithRetry (fun _ => 0) 4 [7]
        ⟨0, []⟩).2.trace
      = [Event.produce [7] 1000 false, Event.sleep 500000000, Event.produce [7] 1000 false,
          Event.sleep 1000000000, Event.produce [7] 1000 false] := by
  obtain ⟨ok0, oks, h, -⟩ := (backoff_before_retry Option.none (failFirst 3) 1000 2 1000
    (fun _ => 0) 3 (Or.inl (by decide)) [7] ⟨0, []⟩).1
  rw [h]
  have h2 : ((New Option.none (some (failFirst 3)) 1000 2 1000).sendWithRetry (fun _ => 0)
      (3 + 1) [7] ⟨0, []⟩).2.trace
      = [Event.produce [7] 1000 false, Event.sleep 500000000, Event.produce [7] 1000 false,
          Event.sleep 1000000000, Event.produce [7] 1000 false] := rfl
  rw [h] at h2
  exact h2

/-- C11: the code at retry `k = 36`.  The claim gives the delay
`500 ms * 2^35 = 17179869184000000000` ns; that product does not fit 64 bits
and the code computes a negative delay instead.  With 36 retries against a
producer that keeps failing this is the value passed to `time.Sleep` before
retry 36.  From retry 64 on the result depends on the platform: where the
conversion of a float that is too large saturates, the code computes
`-500 ms`. -/
theorem backoff_overflows_at_retry_36 :
    (∀ ovf : Int → Int, backoff ovf 36 = -1266874889709551616) ∧
    (500 * millisecond * 2 ^ 35 : Int) = 17179869184000000000 ∧
    Event.sleep (-1266874889709551616) ∈
      ((New Option.none (some (failFirst 100)) 1000 36 1000).sendWithRetry (fun _ => 0) 38 [7]
        ⟨0, []⟩).2.trace ∧
    backoff (fun _ => maxInt64) 64 = -500000000 ∧
    wrapInt64 (500 * millisecond * 2 ^ 63) = 0 := by
  refine ⟨?_, by unfold millisecond; norm_num, ?_, by decide, by decide⟩
  · intro ovf
    rw [backoff_wrapped ovf 36 (by norm_num) (by norm_num)]
    have : (36 - 1 : Int).toNat = 35 := rfl
    rw [this]
    unfold wrapInt64 millisecond
    norm_num
  · decide

/-- Counterexample to C12 as stated: messages A and B are pending, the producer
accepts its first two calls and fails afterwards, there are no retries.  The
first flush delivers A and B and its `MarkSent` fails at the commit, leaving
the store as it was.  The next flush, with the producer in the state the first
one left, fetches the same batch, its call for A fails, and it stops: the
payload of B is not sent again. -/
theorem flushOnce_markSent_fails_counterexample :
    ((New (Store.of ⟨[⟨1, [65], 0, 0⟩, ⟨2, [66], 0, 0⟩], 2⟩) (some (failAfter 2)) 1000 0
        1000).FlushOnce ⟨false, false, false, fun _ => false, false, fun _ => false, false, true⟩
        (fun _ => 0) 2 ⟨0, []⟩).2.2
      = ⟨2, [Event.fetchUnsent 100, Event.produce [65] 1000 true, Event.produce [66] 1000 true,
          Event.markSent [1, 2] (some Err.engine)]⟩ ∧
    ((New (Store.of ⟨[⟨1, [65], 0, 0⟩, ⟨2, [66], 0, 0⟩], 2⟩) (some (failAfter 2)) 1000 0
        1000).FlushOnce ⟨false, false, false, fun _ => false, false, fun _ => false, false, true⟩
        (fun _ => 0) 2 ⟨0, []⟩).2.1.store
      = Store.of ⟨[⟨1, [65], 0, 0⟩, ⟨2, [66], 0, 0⟩], 2⟩ ∧
    ((New (Store.of ⟨[⟨1, [65], 0, 0⟩, ⟨2, [66], 0, 0⟩], 2⟩) (some (failAfter 2)) 1000 0
        1000).FlushOnce Faults.none (fun _ => 0) 2 ⟨2, []⟩).2.2.trace
      = [Event.fetchUnsent 100, Event.produce [65] 1000 false] := by
  refine ⟨rfl, rfl, rfl⟩

/-- C12, amended: when one flush on an open store ends with a call of
`MarkSent` that returns an error, the flush has returned and the forwarder and
its store are as before the flush; a `FetchUnsent 100` that follows returns
the same batch in the same order.  In the next flush the payload of a message
of that batch is passed to `Produce` again as soon as every message before it
in the batch has been delivered again; so the first one always is, and all of
them are, in order, with a producer that accepts every call. -/
theorem flushOnce_markSent_fails {σ : Type} (db : DB) (p : ProducerClient σ)
    (interval retries timeout : Int) (env : Faults) (ovf : Int → Int) (fuel : Nat)
    (w w1 : World σ) (o : Outcome Unit) (f1 : Forwarder σ) (ids : List Int) (e : Err)
    (hflush : (New (Store.of db) (some p) interval retries timeout).FlushOnce env ovf fuel w
      = (o, f1, w1))
    (hlast : w1.trace.getLast? = some (Event.markSent ids (some e))) :
    o = Outcome.done () ∧ f1 = New (Store.of db) (some p) interval retries timeout ∧
    ids ≠ [] ∧
    Store.FetchUnsent (Store.of db) 100 env
      = Except.ok ((db.unsent.take 100).map scanRow) ∧
    (∀ env2 : Faults, env2.query = false → (∀ k, env2.scan k = false) →
      Store.FetchUnsent f1.store 100 env2 = Except.ok ((db.unsent.take 100).map scanRow)) ∧
    (∀ (env2 : Faults) (ovf2 : Int → Int) (fuel2 : Nat) (w2 w3 : World σ)
      (pre : List Message) (m : Message) (post : List Message),
      env2.query = false → (∀ k, env2.scan k = false) →
      (db.unsent.take 100).map scanRow = pre ++ m :: post →
      f1.sendBatch ovf2 (fuel2 + 1) pre [] (w2.log (Event.fetchUnsent 100))
        = (Outcome.done (pre.map Message.ID), w3) →
      ∃ ok rest, (f1.FlushOnce env2 ovf2 (fuel2 + 1) w2).2.2.trace
        = w3.trace ++ Event.produce m.Payload f1.timeout ok :: rest) ∧
    (∀ (env2 : Faults) (ovf2 : Int → Int) (fuel2 : Nat) (w2 : World σ),
      env2.query = false → (∀ k, env2.scan k = false) →
      (∀ st pl t, (p.Produce st pl t).1 = Option.none) →
      ∃ tail, (f1.FlushOnce env2 ovf2 (fuel2 + 1) w2).2.2.trace
        = w2.trace ++ Event.fetchUnsent 100 ::
          ((db.unsent.take 100).map (fun r => Event.produce r.payload f1.timeout true)
            ++ tail)) := by
  obtain ⟨msgs, w0, hfe, hb, hne, herr, hf1, ho⟩ :=
    flushOnce_markSent_inv (New (Store.of db) (some p) interval retries timeout) db p rfl rfl
      env ovf fuel w w1 o f1 ids (some e) hflush hlast
  have hst : (Store.MarkSent (Store.of db) ids env).2 = Store.of db := by
    rcases MarkSent_cases db ids env with h | h
    · exact h.2
    · rw [h] at herr; cases herr
  rw [hst] at hf1
  have hf : f1 = New (Store.of db) (some p) interval retries timeout := hf1
  have hmsgs := FetchUnsent_inv hfe
  have hfl : fetchLimit 100 = 100 := rfl
  rw [hfl] at hmsgs
  subst hf
  have hnonempty : db.unsent.take 100 ≠ [] := by
    intro hnil
    rw [hmsgs, hnil] at hb
    simp only [List.map_nil, Forwarder.sendBatch, Prod.mk.injEq, Outcome.done.injEq] at hb
    exact hne hb.1.symm
  have h0 := New_retries_nonneg (Store.of db) (some p) interval retries timeout
  refine ⟨ho, rfl, hne, by rw [hfe, hmsgs], ?_, ?_, ?_⟩
  · intro env2 hq hs
    exact FetchUnsent_ok db 100 env2 hq hs
  · intro env2 ovf2 fuel2 w2 w3 pre m post hq hs hsplit hpre
    obtain ⟨tail, ht⟩ := flushOnce_trace_of_fetch
      (New (Store.of db) (some p) interval retries timeout) db p rfl rfl env2 hq hs ovf2
      (fuel2 + 1) w2 hnonempty
    have happ := sendBatch_append _ ovf2 (fuel2 + 1) pre [] _ w3 (by simpa using hpre)
      (m :: post)
    obtain ⟨ok, rest, hh⟩ := sendBatch_head
      (New (Store.of db) (some p) interval retries timeout) p rfl h0 ovf2 fuel2 m post
      ([] ++ pre.map Message.ID) w3
    refine ⟨ok, rest ++ tail, ?_⟩
    unfold Forwarder.FlushOnce
    rw [ht, hsplit, happ, hh]
    simp
  · intro env2 ovf2 fuel2 w2 hq hs hok
    obtain ⟨tail, ht⟩ := flushOnce_trace_of_fetch
      (New (Store.of db) (some p) interval retries timeout) db p rfl rfl env2 hq hs ovf2
      (fuel2 + 1) w2 hnonempty
    obtain ⟨st, hall⟩ := sendBatch_all_ok
      (New (Store.of db) (some p) interval retries timeout) p rfl h0 ovf2 (fuel2 + 1)
      (Nat.succ_pos _) hok ((db.unsent.take 100).map scanRow) []
      (w2.log (Event.fetchUnsent 100))
    refine ⟨tail, ?_⟩
    unfold Forwarder.FlushOnce
    rw [ht, hall]
    simp only [World.log, List.map_map, List.append_assoc, List.singleton_append,
      List.cons_append, List.nil_append]
    rfl

/-- Witness of C12 (amended): two pending messages, a producer that accepts
every call and a commit that fails.  The flush ends with the failed `MarkSent`,
and the next flush passes both payloads to `Produce` again. -/
theorem flushOnce_markSent_fails_witness :
    ∃ tail, ((New (Store.of ⟨[⟨1, [65], 0, 0⟩, ⟨2, [66], 0, 0⟩], 2⟩) (some (failFirst 0))
        1000 0 1000).FlushOnce Faults.none (fun _ => 0) (0 + 1) ⟨2, []⟩).2.2.trace
      = [] ++ Event.fetchUnsent 100 ::
        (((DB.mk [⟨1, [65], 0, 0⟩, ⟨2, [66], 0, 0⟩] 2).unsent.take 100).map
          (fun r => Event.produce r.payload
            (New (Store.of ⟨[⟨1, [65], 0, 0⟩, ⟨2, [66], 0, 0⟩], 2⟩) (some (failFirst 0))
              1000 0 1000).timeout true) ++ tail) :=
  (flushOnce_markSent_fails ⟨[⟨1, [65], 0, 0⟩, ⟨2, [66], 0, 0⟩], 2⟩ (failFirst 0) 1000 0 1000
    ⟨false, false, false, fun _ => false, false, fun _ => false, false, true⟩ (fun _ => 0) 1
    ⟨0, []⟩
    ⟨2, [Event.fetchUnsent 100, Event.produce [65] 1000 true, Event.produce [66] 1000 true,
      Event.markSent [1, 2] (some Err.engine)]⟩
    (Outcome.done ())
    (New (Store.of ⟨[⟨1, [65], 0, 0⟩, ⟨2, [66], 0, 0⟩], 2⟩) (some (failFirst 0)) 1000 0 1000)
    [1, 2] Err.engine rfl rfl).2.2.2.2.2.2 Faults.none (fun _ => 0) 0 ⟨2, []⟩ rfl
    (fun _ => rfl) (fun _ _ _ => rfl)

/-! ## The loop -/

/-- C13: an execution in which a flush begins after `Stop()` has returned.
The loop of a forwarder built by `New` starts; a tick arrives, `Stop()` cancels
the context, and the `select`, with both channels ready, takes the tick:
`flushOnce` begins after the cancel.  The same happens with a tick that arrives
after `Stop()` while a flush is in progress. -/
theorem loop_flush_after_stop :
    (New Option.none (Option.none : Option (ProducerClient Nat)) 1000 3 1000).loop
      = some ⟨false, true, false, false, false⟩ ∧
    (LoopState.mk false true false false false).run
        [LoopLabel.tick, LoopLabel.stop, LoopLabel.selectTick]
      = some ⟨true, true, false, true, false⟩ ∧
    (LoopState.mk false true false false false).run
        [LoopLabel.tick, LoopLabel.selectTick, LoopLabel.stop, LoopLabel.tick,
          LoopLabel.flushEnd, LoopLabel.selectTick]
      = some ⟨true, true, false, true, false⟩ := by
  refine ⟨rfl, rfl, rfl⟩

/-- What does hold of the loop of a forwarder built by `New`, in every
execution: (1) a step that begins a flush after a `Stop()` is taken by a `select` at which
the context is cancelled and a tick is pending, both cases being ready; (2) once
the `select` has taken `<-f.ctx.Done()` no flush begins; (3) after `Stop()` the
context stays cancelled; (4) at a `select` with the context cancelled and no
tick pending no flush can begin and the loop returns; (5) a flush in progress
when `Stop()` is called is still in progress after it, the loop cannot return
before the flush ends, and the flush can end. -/
theorem loop_after_stop {σ : Type} (store : Option Store)
    (producer : Option (ProducerClient σ)) (interval retries timeout : Int)
    (s0 s : LoopState) (ls : List LoopLabel)
    (hl : (New store producer interval retries timeout).loop = some s0)
    (hrun : s0.run ls = some s) :
    (∀ pre post, ls = pre ++ LoopLabel.selectTick :: post → LoopLabel.stop ∈ pre →
      ∃ s1, s0.run pre = some s1 ∧ s1.ctxDone = true ∧ s1.tick = true ∧
        s1.flushing = false ∧ s1.returned = false) ∧
    (∀ pre post, ls = pre ++ LoopLabel.selectDone :: post → LoopLabel.selectTick ∉ post) ∧
    (LoopLabel.stop ∈ ls → s.ctxDone = true) ∧
    (s.ctxDone = true → s.tick = false → s.flushing = false → s.returned = false →
      s.enabled LoopLabel.selectTick = false ∧ s.enabled LoopLabel.selectDone = true ∧
        (s.next LoopLabel.selectDone).returned = true) ∧
    (s.flushing = true →
      (s.next LoopLabel.stop).flushing = true ∧
        (s.next LoopLabel.stop).enabled LoopLabel.selectDone = false ∧
        (s.next LoopLabel.stop).enabled LoopLabel.flushEnd = true ∧
        ((s.next LoopLabel.stop).next LoopLabel.flushEnd).flushing = false) := by
  have hs0 := New_loop store producer interval retries timeout s0 hl
  subst hs0
  refine ⟨?_, ?_, ?_, ?_, ?_⟩
  · intro pre post hls hstop
    rw [hls, run_append] at hrun
    cases hpre : (LoopState.mk false true false false false).run pre with
    | none => rw [hpre] at hrun; cases hrun
    | some s1 =>
      rw [hpre] at hrun
      simp only [Option.bind, LoopState.run] at hrun
      split at hrun
      · rename_i hen
        simp only [LoopState.enabled, Bool.and_eq_true, Bool.not_eq_true'] at hen
        exact ⟨s1, rfl, run_stop_ctxDone pre _ s1 hpre rfl hstop, hen.2, hen.1.2, hen.1.1⟩
      · cases hrun
  · intro pre post hls hmem
    rw [hls, run_append] at hrun
    cases hpre : (LoopState.mk false true false false false).run pre with
    | none => rw [hpre] at hrun; cases hrun
    | some s1 =>
      rw [hpre] at hrun
      simp only [Option.bind, LoopState.run] at hrun
      split at hrun
      · have := run_returned post _ s hrun (by simp [LoopState.next]) _ hmem
        cases this
      · cases hrun
  · intro hstop
    exact run_stop_ctxDone ls _ s hrun rfl hstop
  · intro h1 h2 h3 h4
    simp [LoopState.enabled, LoopState.next, h1, h2, h3, h4]
  · intro hf
    have hr := run_flushing_not_returned ls _ s hrun (by simp) hf
    have hc := run_cancel ls _ s hrun
    simp only at hc
    simp [LoopState.enabled, LoopState.next, hf, hr, hc]

/-- An instance of the theorem above: a tick starts a flush, `Stop()` is called during
the flush, the flush ends, and the `select` returns; `Stop()` has cancelled the
context and nothing follows the return. -/
theorem loop_after_stop_example :
    (∀ pre post, [LoopLabel.tick, LoopLabel.selectTick, LoopLabel.stop, LoopLabel.flushEnd,
        LoopLabel.selectDone] = pre ++ LoopLabel.selectDone :: post →
      LoopLabel.selectTick ∉ post) ∧
    (LoopLabel.stop ∈ [LoopLabel.tick, LoopLabel.selectTick, LoopLabel.stop,
        LoopLabel.flushEnd, LoopLabel.selectDone] →
      (LoopState.mk true true false false true).ctxDone = true) :=
  ⟨(loop_after_stop Option.none (Option.none : Option (ProducerClient Nat)) 1000 3 1000
      ⟨false, true, false, false, false⟩ ⟨true, true, false, false, true⟩
      [LoopLabel.tick, LoopLabel.selectTick, LoopLabel.stop, LoopLabel.flushEnd,
        LoopLabel.selectDone] rfl rfl).2.1,
    (loop_after_stop Option.none (Option.none : Option (ProducerClient Nat)) 1000 3 1000
      ⟨false, true, false, false, false⟩ ⟨true, true, false, false, true⟩
      [LoopLabel.tick, LoopLabel.selectTick, LoopLabel.stop, LoopLabel.flushEnd,
        LoopLabel.selectDone] rfl rfl).2.2.1⟩

end Gateway
